import Mathlib

/-!
Shallow embedding of the reconciliation engine of `src/data_utils.py`
(`process_data`) and of the analytics preparation of `src/reporting_tab.py`
(`_prepare_open_jobs_data`), together with the configuration constants of
`src/config.py`.

Modelling conventions:
* A pandas cell is a `Val`: a string, an integer, a date (as a day number),
  or a null (`vNull` covers Python `None`, `NaN` and `NaT`, which the engine
  treats uniformly through `pd.notna`).  Float-typed cells are outside the
  modelled universe; decimal monetary amounts reach the analytics coercion
  as strings, which is how they are persisted.
* A DataFrame is a column-name list plus positional rows, exactly the data
  `process_data` inspects.  Label lookup takes the first matching column,
  matching single-label pandas access on frames without duplicate labels.
* `pd.to_datetime(..., errors='coerce')` is modelled as the identity on
  date cells and coercion to null otherwise: per the loader contract
  (`load_excel` / `load_status`), date columns are already datetime-typed
  (`vDate`/`vNull`) when they reach the engine.
* The call `datetime.datetime.now().strftime('%Y-%m-%d %H:%M')` made inside
  `process_data` (data_utils.py line 417) is modelled as the extra argument
  `now : String`: the wall-clock string the function reads internally.
-/

/-- A pandas cell value. -/
inductive Val where
  | vStr : String → Val
  | vNum : Int → Val
  | vDate : Int → Val
  | vNull : Val
deriving DecidableEq, Repr

/-- Python falsiness/nullness as seen by `pd.notna`: only nulls are "na". -/
def isNull : Val → Bool
  | Val.vNull => true
  | _ => false

/-- `pd.notna` applied to the result of `Series.get`, which yields Python
`None` (here `none`) for an absent label. -/
def notna : Option Val → Bool
  | some v => !(isNull v)
  | none => false

/-- Python `str(...)` of a cell value, as used by `astype(str)` and by the
f-string interpolation in the missing-record alert.  `str` of a null is
modelled as `"nan"` (the form taken by `NaN` under `astype(str)`). -/
def pyStr : Val → String
  | Val.vStr s => s
  | Val.vNum n => toString n
  | Val.vDate d => toString d
  | Val.vNull => "nan"

/-- Python truthiness of a cell value (used by `if original_status_val and ...`,
where a missing value has been replaced by `None`). -/
def pyTruthy : Val → Bool
  | Val.vStr s => s != ""
  | Val.vNum n => n != 0
  | Val.vDate _ => true
  | Val.vNull => false

/-- Python `!=` between a cell value and a string constant: strings compare
by content, any other type is unequal to a string. -/
def valNeStr (v : Val) (s : String) : Bool :=
  match v with
  | Val.vStr t => t != s
  | _ => true

/-- The whitespace set of Python `str.strip()` (restricted to the ASCII
whitespace characters that can occur in the modelled data). -/
def isPyWs (c : Char) : Bool :=
  c = ' ' || c = '\t' || c = '\n' || c = '\r' || c = '\x0b' || c = '\x0c'

/-- Python `str.strip()`. -/
def pyStrip (s : String) : String :=
  String.mk (((s.data.dropWhile isPyWs).reverse.dropWhile isPyWs).reverse)

/-- An apostrophe, used inside the alert message of `process_data`. -/
def apos : String := String.singleton (Char.ofNat 39)

/-- `config.EXPECTED_COLUMNS` from `src/config.py`. -/
def EXPECTED_COLUMNS : List String :=
  ["Invoice #", "Order Date", "Turn in Date", "Account",
   "Invoice Total", "Balance", "Salesperson", "Project Coordinator",
   "Status", "Notes"]

/-- `config.REVIEW_MISSING_STATUS` from `src/config.py`. -/
def REVIEW_MISSING_STATUS : String := "Review - Missing from Report"

/-- The key column of `process_data` (`key_column = 'Invoice #'`). -/
def keyColumn : String := "Invoice #"

/-- `date_cols_config = ['Order Date', 'Turn in Date']` in `process_data`. -/
def dateColsConfig : List String := ["Order Date", "Turn in Date"]

/-- A DataFrame: named columns plus positional rows. -/
structure DF where
  cols : List String
  rows : List (List Val)
deriving DecidableEq, Repr

/-- Index of the first column with the given label. -/
def colIdx : List String → String → Option Nat
  | [], _ => none
  | a :: t, c => if a = c then some 0 else (colIdx t c).map (· + 1)

/-- The cell of a positional row under a column label; null when the label
is absent or the row is short. -/
def cellOf (cols : List String) (r : List Val) (c : String) : Val :=
  match colIdx cols c with
  | some i => (r.get? i).getD Val.vNull
  | none => Val.vNull

/-- `Series.get` on a row keyed by `cols`: Python `None` (`none`) when the
label is absent, otherwise the cell (nulls included). -/
def mGet (cols : List String) (r : List Val) (c : String) : Option Val :=
  (colIdx cols c).map (fun i => (r.get? i).getD Val.vNull)

/-- Column-header sanitization of `process_data` (data_utils.py lines
277-278): if any header is untrimmed, every header is stripped and has
newlines and carriage returns removed. -/
def cleanCol (s : String) : String :=
  String.mk (((pyStrip s).data.filter (fun c => c ≠ '\n')).filter (fun c => c ≠ '\r'))

/-- data_utils.py lines 277-278. -/
def sanitizeCols (df : DF) : DF :=
  if df.cols.all (fun c => c = pyStrip c) then df
  else ⟨df.cols.map cleanCol, df.rows⟩

/-- Replacement of the cell at position `i` by its Python string form. -/
def setKeyCell (i : Nat) (r : List Val) : List Val :=
  r.set i (Val.vStr (pyStr ((r.get? i).getD Val.vNull)))

/-- `df[key_column] = df[key_column].astype(str)`: the key column's cells are
replaced by their Python string form. -/
def astypeKey (df : DF) : DF :=
  match colIdx df.cols keyColumn with
  | none => df
  | some i => ⟨df.cols, df.rows.map (setKeyCell i)⟩

/-- Projection of a frame onto a list of column labels (`df[cols]`). -/
def restrict (df : DF) (cs : List String) : DF :=
  ⟨cs, df.rows.map (fun r => cs.map (fun c => cellOf df.cols r c))⟩

/-- `df.drop(columns=['#'])` guarded as in data_utils.py lines 306-314. -/
def maybeDropHash (df : DF) : DF :=
  if "#" ∈ df.cols ∧ "#" ∉ EXPECTED_COLUMNS then
    restrict df (df.cols.filter (fun c => c ≠ "#"))
  else df

/-- The merge indicator (`_merge`) values of the outer merge. -/
inductive MergeTag where
  | leftOnly
  | rightOnly
  | both
deriving DecidableEq, Repr

/-- The normalized key string of a row (the join key after `astype(str)`). -/
def keyStrOf (df : DF) (r : List Val) : String :=
  pyStr (cellOf df.cols r keyColumn)

/-- The normalized keys of a frame, in row order. -/
def normKeys (df : DF) : List String :=
  df.rows.map (fun r => keyStrOf df r)

/-- Suffixing of a left column in `pd.merge(..., suffixes=('_old','_new'))`:
non-key columns also present on the right get `_old`. -/
def sfxL (rcols : List String) (c : String) : String :=
  if c ≠ keyColumn ∧ c ∈ rcols then c ++ "_old" else c

/-- Suffixing of a non-key right column: columns also present on the left
get `_new`. -/
def sfxR (lcols : List String) (c : String) : String :=
  if c ∈ lcols then c ++ "_new" else c

/-- The column labels of the merged frame (key kept in its left position,
then the remaining right columns). -/
def mergeColsFn (lcols rcols : List String) : List String :=
  lcols.map (sfxL rcols) ++ (rcols.filter (fun c => c ≠ keyColumn)).map (sfxR lcols)

/-- The cell a merge side contributes: the row's cell when the side matched,
null when it did not. -/
def sideCell (cols : List String) (o : Option (List Val)) (c : String) : Val :=
  match o with
  | some r => cellOf cols r c
  | none => Val.vNull

/-- One merged row: left cells (the key cell carrying the join key), then
the non-key right cells; an absent side contributes nulls. -/
def mergedRowOf (L R : DF) (k : String) (lr rr : Option (List Val)) : List Val :=
  L.cols.map (fun c =>
    if c = keyColumn then Val.vStr k
    else sideCell L.cols lr c)
  ++ (R.cols.filter (fun c => c ≠ keyColumn)).map (fun c => sideCell R.cols rr c)

/-- `pd.merge(L, R, on=key, how='outer', indicator=True)`: each left row
matched against the equal-keyed right rows (cross product, tag `both`),
unmatched left rows tagged `left_only`, then unmatched right rows tagged
`right_only`. -/
def outerMergeRows (L R : DF) : List (MergeTag × String × List Val) :=
  (L.rows.flatMap (fun lr =>
    let k := keyStrOf L lr
    let ms := R.rows.filter (fun rr => keyStrOf R rr == k)
    if ms.isEmpty then [(MergeTag.leftOnly, k, mergedRowOf L R k (some lr) none)]
    else ms.map (fun rr => (MergeTag.both, k, mergedRowOf L R k (some lr) (some rr)))))
  ++ (R.rows.filter (fun rr =>
        L.rows.all (fun lr => keyStrOf L lr != keyStrOf R rr))).map
      (fun rr => (MergeTag.rightOnly, keyStrOf R rr,
                  mergedRowOf L R (keyStrOf R rr) none (some rr)))

/-- `value if pd.notna(value) else (pd.NaT / None)`: null-normalization of an
optional cell. -/
def nullNorm (o : Option Val) : Val :=
  match o with
  | some v => if isNull v then Val.vNull else v
  | none => Val.vNull

/-- Field values of the `right_only` branch (data_utils.py lines 379-396). -/
def fRight (get : String → Option Val) (k : String) (c : String) : Val :=
  if c = keyColumn then Val.vStr k
  else if c = "Status" then Val.vStr "New"
  else if c = "Notes" then Val.vStr ""
  else nullNorm (get (c ++ "_new"))

/-- Base field values of the `left_only` branch before the Status/Notes
overrides (data_utils.py lines 404-414): the `_old`-suffixed column when the
merge produced one, the unsuffixed column otherwise. -/
def fLeftBase (mcols : List String) (get : String → Option Val) (k : String)
    (c : String) : Val :=
  if c = keyColumn then Val.vStr k
  else nullNorm (if (c ++ "_old") ∈ mcols then get (c ++ "_old") else get c)

/-- The alert text built at data_utils.py lines 417-421 for a given clock
string and prior status value (`vNull` standing for Python `None`). -/
def alertFull (now : String) (st : Val) : String :=
  let m1 := "System Alert (" ++ now ++ "): Job not in last Excel import."
  let m2 := if pyTruthy st && valNeStr st REVIEW_MISSING_STATUS then
              m1 ++ " Previous status: " ++ apos ++ pyStr st ++ apos ++ ". "
            else m1
  m2 ++ "Verify if closed (set Status to " ++ apos ++ "Closed" ++ apos ++
    ") or if active (re-include in Excel & update status)."

/-- `existing_notes` of the `left_only` branch: `str(x)` unless `x is None`. -/
def existingNotesOf (v : Val) : String :=
  if isNull v then "" else pyStr v

/-- Updating one field of the row dict (`current_row_data[col] = v`). -/
def setField (r : List (String × Val)) (c : String) (v : Val) : List (String × Val) :=
  r.map (fun p => if p.1 = c then (c, v) else p)

/-- The `left_only` branch (data_utils.py lines 399-425): base fields, then
Status forced to the sentinel and Notes replaced by the prepended alert. -/
def rowLeftOnly (mcols : List String) (get : String → Option Val) (k : String)
    (now : String) : List (String × Val) :=
  let base := EXPECTED_COLUMNS.map (fun c => (c, fLeftBase mcols get k c))
  let origStatus := (base.lookup "Status").getD Val.vNull
  let existingNotes := existingNotesOf ((base.lookup "Notes").getD Val.vNull)
  let notes := pyStrip (alertFull now origStatus ++ "\n-----\n" ++ existingNotes)
  setField (setField base "Status" (Val.vStr REVIEW_MISSING_STATUS))
    "Notes" (Val.vStr notes)

/-- Field values of the `both` branch (data_utils.py lines 427-449). -/
def fBoth (get : String → Option Val) (k : String) (c : String) : Val :=
  if c = keyColumn then Val.vStr k
  else if c = "Status" ∨ c = "Notes" then
    match get c with
    | some v => if isNull v then (if c = "Notes" then Val.vStr "" else Val.vStr "New") else v
    | none => if c = "Notes" then Val.vStr "" else Val.vStr "New"
  else if c ∈ dateColsConfig then
    (if notna (get (c ++ "_new")) then (get (c ++ "_new")).getD Val.vNull
     else (get (c ++ "_old")).getD Val.vNull)
  else if notna (get (c ++ "_new")) then (get (c ++ "_new")).getD Val.vNull
  else (get (c ++ "_old")).getD Val.vNull

/-- The safeguard loop (data_utils.py lines 453-460): any expected column
absent from the row dict is filled with its default. -/
def safeguard (r : List (String × Val)) : List (String × Val) :=
  r ++ (EXPECTED_COLUMNS.filter (fun c => (r.lookup c).isNone)).map (fun c =>
    (c, if c ∈ dateColsConfig then Val.vNull
        else if c = "Status" then Val.vStr "New"
        else if c = "Notes" then Val.vStr ""
        else Val.vNull))

/-- `pd.to_datetime(..., errors='coerce')` on cells of a date column that the
loaders have already typed: dates pass through, everything else coerces to
null. -/
def toDatetimeCoerce : Val → Val
  | Val.vDate d => Val.vDate d
  | _ => Val.vNull

/-- The final per-column cast of data_utils.py lines 473-478. -/
def castCol (c : String) (v : Val) : Val :=
  if c ∈ dateColsConfig then toDatetimeCoerce v
  else if c = keyColumn then Val.vStr (pyStr v)
  else v

/-- Reindexing of a row dict to `EXPECTED_COLUMNS` plus the final casts
(data_utils.py lines 473-478). -/
def finalCastVals (r : List (String × Val)) : List Val :=
  EXPECTED_COLUMNS.map (fun c => castCol c ((r.lookup c).getD Val.vNull))

/-- Processing of one merged row (the body of the loop at data_utils.py
lines 373-462). -/
def processMergedRow (mcols : List String) (now : String) :
    MergeTag × String × List Val → List Val
  | (tag, k, mvals) =>
    let get := mGet mcols mvals
    let r := match tag with
      | MergeTag.rightOnly => EXPECTED_COLUMNS.map (fun c => (c, fRight get k c))
      | MergeTag.leftOnly => rowLeftOnly mcols get k now
      | MergeTag.both => EXPECTED_COLUMNS.map (fun c => (c, fBoth get k c))
    finalCastVals (safeguard r)

/-- The merge plus row loop plus final reindex of `process_data`. -/
def buildOutput (L R : DF) (now : String) : DF :=
  ⟨EXPECTED_COLUMNS,
   (outerMergeRows L R).map (processMergedRow (mergeColsFn L.cols R.cols) now)⟩

/-- Failure modes of `process_data`: the explicit `return None` paths (lines
288-294 and 332-335), and the `KeyError` `pd.merge` raises when the persisted
frame is non-empty yet lacks the key column. -/
inductive PdError where
  | missingKeyColumn
  | mergeKeyAbsent
deriving DecidableEq, Repr

/-- The incoming frame after header sanitization, key `astype(str)` and the
`'#'` drop (data_utils.py lines 275-309). -/
def prepNew (b : DF) : DF := maybeDropHash (astypeKey (sanitizeCols b))

/-- `cols_from_new` after the key-insertion step (data_utils.py lines
316-331): the expected columns present in the incoming frame other than
`Status`/`Notes`, with the key column forced to the front if absent. -/
def colsFromNew (b : DF) : List String :=
  let cfn0 := EXPECTED_COLUMNS.filter
    (fun c => c ∈ (prepNew b).cols ∧ c ≠ "Status" ∧ c ≠ "Notes")
  if keyColumn ∈ (prepNew b).cols ∧ keyColumn ∉ cfn0 then keyColumn :: cfn0 else cfn0

/-- First-occurrence deduplication (`sorted(list(set(x)), key=x.index)`,
data_utils.py line 338). -/
def dedupFirstAux : List String → List String → List String
  | [], _ => []
  | a :: t, seen => if a ∈ seen then dedupFirstAux t seen else a :: dedupFirstAux t (a :: seen)

/-- data_utils.py line 338. -/
def dedupFirst (l : List String) : List String := dedupFirstAux l []

/-- `valid_cols_for_merge` (data_utils.py line 345). -/
def validColsOf (b : DF) : List String :=
  (dedupFirst (colsFromNew b)).filter (fun c => c ∈ (prepNew b).cols)

/-- `new_data_for_merge` (data_utils.py lines 345-351): the incoming frame
projected onto the valid merge columns, or a key-only frame when none
survive. -/
def newDataForMerge (b : DF) : DF :=
  if (validColsOf b).isEmpty then
    (if keyColumn ∈ (prepNew b).cols then restrict (prepNew b) [keyColumn]
     else ⟨[keyColumn], []⟩)
  else restrict (prepNew b) (validColsOf b)

/-- The persisted frame after the key fixes of data_utils.py lines 297-303
and the `'#'` drop of lines 311-314. -/
def prepCur (s : DF) : DF :=
  maybeDropHash
    (if keyColumn ∈ s.cols then astypeKey s
     else if s.rows.isEmpty then ⟨s.cols ++ [keyColumn], s.rows⟩
     else s)

/-- `process_data(new_df_raw, current_status_df)` of `src/data_utils.py`
lines 255-483, with the internally read clock string exposed as `now`. -/
def process_data (newDfRaw currentStatusDf : DF) (now : String) : Except PdError DF :=
  if keyColumn ∈ (sanitizeCols newDfRaw).cols then
    if keyColumn ∉ colsFromNew newDfRaw ∧ keyColumn ∉ (prepNew newDfRaw).cols then
      Except.error PdError.missingKeyColumn
    else if keyColumn ∈ (prepCur currentStatusDf).cols then
      Except.ok (buildOutput (prepCur currentStatusDf) (newDataForMerge newDfRaw) now)
    else Except.error PdError.mergeKeyAbsent
  else Except.error PdError.missingKeyColumn

/-- The five age-bucket labels of `_prepare_open_jobs_data`
(reporting_tab.py lines 253-259). -/
def ageLabels : List String :=
  ["Job Age: 0-7 Days (First Week of Job Age)",
   "Job Age: 8-21 Days (Job is 2-3 Weeks Old)",
   "Job Age: 22-49 Days (Job is 4-7 Weeks Old)",
   "Job Age: 50-56 Days (Job is 8 Weeks Old)",
   "Job Age: Over 56 Days (Job is Older than 8 Weeks)"]

/-- `pd.cut(age, bins=[-1, 7, 21, 49, 56, inf], labels=ageLabels, right=True)`
on an integral age (reporting_tab.py lines 252-260): half-open-left,
closed-right bins; ages outside every bin (negative ages) get null. -/
def ageBucket (a : Int) : Option String :=
  if -1 < a ∧ a ≤ 7 then some (ageLabels.get! 0)
  else if 7 < a ∧ a ≤ 21 then some (ageLabels.get! 1)
  else if 21 < a ∧ a ≤ 49 then some (ageLabels.get! 2)
  else if 49 < a ∧ a ≤ 56 then some (ageLabels.get! 3)
  else if 56 < a then some (ageLabels.get! 4)
  else none

/-- Per-row age classification of `_prepare_open_jobs_data` (reporting_tab.py
lines 239-262): `JobAge_days = (today - TurnInDate_dt).dt.days` for rows with
a parseable turn-in date (dates as day numbers, `today` normalized), null age
and null bucket otherwise. -/
def classify_age (turnIn : Option Int) (today : Int) : Option Int × Option String :=
  match turnIn with
  | none => (none, none)
  | some d => (some (today - d), ageBucket (today - d))

/-- Digit-string value (the integral part of `pd.to_numeric`'s grammar as it
occurs in the persisted monetary data). -/
def digitsVal (l : List Char) : Option Nat :=
  if l.all Char.isDigit then
    some (l.foldl (fun a c => a * 10 + (c.toNat - 48)) 0)
  else none

/-- An unsigned decimal numeral: digits with at most one decimal point and
at least one digit overall. -/
def parseUnsignedQ (l : List Char) : Option ℚ :=
  match l.splitOn '.' with
  | [ip] =>
      if ip.isEmpty then none
      else match digitsVal ip with
           | some n => some ((n : ℚ))
           | none => none
  | [ip, fp] =>
      if ip.isEmpty ∧ fp.isEmpty then none
      else match digitsVal ip, digitsVal fp with
           | some n, some m => some ((n : ℚ) + (m : ℚ) / ((10 : ℚ) ^ fp.length))
           | _, _ => none
  | _ => none

/-- `pd.to_numeric(s, errors='coerce')` on a monetary string: surrounding
whitespace stripped, an optional sign, then an unsigned decimal numeral;
anything else coerces to null. -/
def parseNumQ (s : String) : Option ℚ :=
  let t := (pyStrip s).data
  if t.head? = some '-' then (parseUnsignedQ (t.drop 1)).map (fun q => -q)
  else if t.head? = some '+' then parseUnsignedQ (t.drop 1)
  else parseUnsignedQ t

/-- The monetary string after `astype(str)` and the regex removal of dollar
signs and commas (reporting_tab.py lines 230-236). -/
def moneyCleaned (v : Val) : String :=
  String.mk (((pyStr v).data.filter (fun c => c ≠ '$')).filter (fun c => c ≠ ','))

/-- The monetary coercion of `_prepare_open_jobs_data` (reporting_tab.py
lines 229-236): `pd.to_numeric(col.astype(str).replace({dollar: '', comma:
''}, regex=True), errors='coerce').fillna(0)`, applied to both `Balance` and
`Invoice Total`. -/
def coerceMoney (v : Val) : ℚ :=
  match parseNumQ (moneyCleaned v) with
  | some q => q
  | none => 0

deriving instance DecidableEq for Except

/-- Whether `t` is a suffix of `s` (used to state notes-layout properties). -/
def strEndsWith (s t : String) : Bool := t.data.isSuffixOf s.data

/-- A canonical one-record snapshot used in concrete checks: key `"A"`,
status `"Done"`, notes `"ok"`. -/
def snapCanon : DF :=
  ⟨EXPECTED_COLUMNS,
   [[Val.vStr "A", Val.vDate 100, Val.vDate 120, Val.vStr "Acme",
     Val.vStr "1000", Val.vStr "100", Val.vStr "Bob", Val.vStr "Pat",
     Val.vStr "Done", Val.vStr "ok"]]⟩

/-- A one-record incoming batch keyed `"A"` carrying only the key column. -/
def batchKeyOnlyA : DF := ⟨["Invoice #"], [[Val.vStr "A"]]⟩

/-- An incoming batch with the key column and no rows. -/
def batchEmptyRows : DF := ⟨["Invoice #"], []⟩

/-- An incoming batch lacking the key column. -/
def batchNoKey : DF := ⟨["Foo"], [[Val.vNull]]⟩

/-- A one-record incoming batch keyed `"B"` with an `Account` value. -/
def batchB : DF := ⟨["Invoice #", "Account"], [[Val.vStr "B", Val.vStr "Beta"]]⟩

/-- A snapshot whose only record is keyed by the clean string `"123"`. -/
def snapKey123 : DF :=
  ⟨EXPECTED_COLUMNS,
   [[Val.vStr "123", Val.vNull, Val.vNull, Val.vNull, Val.vNull, Val.vNull,
     Val.vNull, Val.vNull, Val.vStr "Done", Val.vStr "ok"]]⟩

/-- An incoming batch whose only key is `" 123"`: the same invoice number as
`snapKey123` up to leading whitespace. -/
def batchWsKey : DF := ⟨["Invoice #"], [[Val.vStr " 123"]]⟩

/-- An incoming batch whose only key is the number `123`. -/
def batchNumKey : DF := ⟨["Invoice #"], [[Val.vNum 123]]⟩

/-- A snapshot whose only record has prior notes ending in a newline
(`"ok\n"`). -/
def snapTrailingNl : DF :=
  ⟨EXPECTED_COLUMNS,
   [[Val.vStr "A", Val.vNull, Val.vNull, Val.vNull, Val.vNull, Val.vNull,
     Val.vNull, Val.vNull, Val.vStr "Done", Val.vStr "ok\n"]]⟩

/-- Final field values of the `left_only` branch after its Status/Notes
overrides. -/
def fLeftFinal (mcols : List String) (get : String → Option Val)
    (k now : String) (c : String) : Val :=
  if c = "Notes" then
    Val.vStr (pyStrip (alertFull now (fLeftBase mcols get k "Status") ++
      "\n-----\n" ++ existingNotesOf (fLeftBase mcols get k "Notes")))
  else if c = "Status" then Val.vStr REVIEW_MISSING_STATUS
  else fLeftBase mcols get k c

/-- The columns that actually reach the right side of the merge when the
key column is present: the expected columns of the prepared incoming frame
other than `Status`/`Notes`. -/
def rcOf (b : DF) : List String :=
  EXPECTED_COLUMNS.filter
    (fun c => c ∈ (prepNew b).cols ∧ c ≠ "Status" ∧ c ≠ "Notes")

/-- A canonical snapshot with one record keyed `"1"` whose `Salesperson` is
`"Bob"`. -/
def snapBobSalesperson : DF :=
  ⟨EXPECTED_COLUMNS,
   [[Val.vStr "1", Val.vNull, Val.vNull, Val.vNull, Val.vNull, Val.vNull,
     Val.vStr "Bob", Val.vNull, Val.vStr "Done", Val.vStr "ok"]]⟩

/-- A one-record incoming batch keyed `"1"` carrying only the key column. -/
def batchKey1 : DF := ⟨["Invoice #"], [[Val.vStr "1"]]⟩

/-! Basic lemmas about cell access. -/

theorem pyStr_vStr (s : String) : pyStr (Val.vStr s) = s := rfl

theorem isNull_false_iff (v : Val) : isNull v = false ↔ v ≠ Val.vNull := by
  cases v <;> simp [isNull]

theorem nullNorm_some (v : Val) : nullNorm (some v) = v := by
  cases v <;> simp [nullNorm, isNull]

theorem colIdx_lt {cs : List String} {c : String} {i : Nat}
    (h : colIdx cs c = some i) : i < cs.length := by
  induction cs generalizing i with
  | nil => simp [colIdx] at h
  | cons a t ih =>
    simp only [colIdx] at h
    by_cases ha : a = c
    · rw [if_pos ha] at h
      cases h
      simp
    · rw [if_neg ha] at h
      rcases Option.map_eq_some'.mp h with ⟨j, hj, rfl⟩
      have := ih hj
      simp only [List.length_cons]
      omega

theorem colIdx_zero {a : String} {t : List String} {c : String}
    (h : colIdx (a :: t) c = some 0) : a = c := by
  by_cases ha : a = c
  · exact ha
  · simp [colIdx, ha] at h

theorem cell_map {cs : List String} (f : String → Val) {c : String} (h : c ∈ cs) :
    cellOf cs (cs.map f) c = f c := by
  induction cs with
  | nil => cases h
  | cons a t ih =>
    by_cases ha : a = c
    · subst ha
      simp [cellOf, colIdx]
    · have hct : c ∈ t := by
        rcases List.mem_cons.mp h with h1 | h1
        · exact absurd h1.symm ha
        · exact h1
      have := ih hct
      simp only [cellOf, colIdx, if_neg ha, List.map_cons] at this ⊢
      cases hidx : colIdx t c with
      | none => simp [hidx] at this ⊢; exact this
      | some j => simp [hidx] at this ⊢; exact this

theorem mGet_map_map (cs : List String) (g : String → String) (f : String → Val)
    (c : String) :
    mGet (cs.map g) (cs.map f) c = (cs.find? (fun x => g x == c)).map f := by
  induction cs with
  | nil => simp [mGet, colIdx]
  | cons a t ih =>
    by_cases ha : g a = c
    · simp [mGet, colIdx, ha, List.find?_cons, beq_iff_eq]
    · simp only [List.map_cons, mGet, colIdx, if_neg ha, List.find?_cons]
      rw [show ((g a == c) = false) from beq_eq_false_iff_ne.mpr ha]
      simp only [mGet] at ih
      cases hidx : colIdx (t.map g) c with
      | none => simp [hidx] at ih ⊢; rw [← ih]
      | some j =>
        simp only [hidx, Option.map_some'] at ih
        simp [hidx, ← ih]

theorem find?_congr_unique {l : List String} {p : String → Bool} {c0 : String}
    (h : ∀ x ∈ l, p x = true ↔ x = c0) :
    l.find? p = if c0 ∈ l then some c0 else none := by
  induction l with
  | nil => simp
  | cons a t ih =>
    have ha := h a (List.mem_cons_self a t)
    have ih2 := ih (fun x hx => h x (List.mem_cons_of_mem a hx))
    cases hpa : p a with
    | true =>
      have haeq : a = c0 := ha.mp hpa
      subst haeq
      simp [List.find?_cons, hpa]
    | false =>
      have hane : a ≠ c0 := by
        intro he
        rw [ha.mpr he] at hpa
        cases hpa
      simp only [List.find?_cons, hpa, ih2]
      by_cases hc : c0 ∈ t
      · rw [if_pos hc, if_pos (List.mem_cons_of_mem a hc)]
      · rw [if_neg hc, if_neg ?_]
        intro hm
        rcases List.mem_cons.mp hm with he | he
        · exact hane he.symm
        · exact hc he

theorem find?_none_of {l : List String} {p : String → Bool}
    (h : ∀ x ∈ l, p x = false) : l.find? p = none := by
  induction l with
  | nil => simp
  | cons a t ih =>
    simp only [List.find?_cons, h a (List.mem_cons_self a t)]
    exact ih (fun x hx => h x (List.mem_cons_of_mem a hx))

theorem colIdx_append_left {cs1 : List String} (cs2 : List String) {c : String}
    {i : Nat} (h : colIdx cs1 c = some i) : colIdx (cs1 ++ cs2) c = some i := by
  induction cs1 generalizing i with
  | nil => simp [colIdx] at h
  | cons a t ih =>
    simp only [colIdx, List.cons_append, List.append_eq] at h ⊢
    by_cases ha : a = c
    · rw [if_pos ha] at h ⊢
      exact h
    · rw [if_neg ha] at h ⊢
      rcases Option.map_eq_some'.mp h with ⟨j, hj, rfl⟩
      rw [ih hj]
      rfl

theorem colIdx_append_right {cs1 : List String} (cs2 : List String) {c : String}
    (h : colIdx cs1 c = none) :
    colIdx (cs1 ++ cs2) c = (colIdx cs2 c).map (· + cs1.length) := by
  induction cs1 with
  | nil => simp [colIdx]
  | cons a t ih =>
    simp only [colIdx, List.cons_append, List.append_eq] at h ⊢
    by_cases ha : a = c
    · rw [if_pos ha] at h
      cases h
    · rw [if_neg ha] at h ⊢
      have ht : colIdx t c = none := by
        cases hidx : colIdx t c with
        | none => rfl
        | some j => rw [hidx] at h; cases h
      rw [ih ht]
      cases colIdx cs2 c with
      | none => rfl
      | some j =>
        simp only [Option.map_some', List.length_cons]
        congr 1

theorem mGet_append_left {cs1 cs2 : List String} {vs1 vs2 : List Val}
    (hlen : vs1.length = cs1.length) {c : String} {i : Nat}
    (h : colIdx cs1 c = some i) :
    mGet (cs1 ++ cs2) (vs1 ++ vs2) c = mGet cs1 vs1 c := by
  have hi : i < vs1.length := hlen ▸ colIdx_lt h
  rw [mGet, mGet, colIdx_append_left cs2 h, h]
  simp only [Option.map_some']
  rw [List.get?_eq_getElem?, List.get?_eq_getElem?, List.getElem?_append_left hi]

theorem mGet_append_right {cs1 cs2 : List String} {vs1 vs2 : List Val}
    (hlen : vs1.length = cs1.length) {c : String}
    (h : colIdx cs1 c = none) :
    mGet (cs1 ++ cs2) (vs1 ++ vs2) c = mGet cs2 vs2 c := by
  rw [mGet, mGet, colIdx_append_right cs2 h]
  cases colIdx cs2 c with
  | none => rfl
  | some j =>
    simp only [Option.map_some']
    congr 1
    rw [List.get?_eq_getElem?, List.get?_eq_getElem?]
    have hle : vs1.length ≤ j + cs1.length := hlen ▸ Nat.le_add_left cs1.length j
    rw [List.getElem?_append_right hle, hlen, Nat.add_sub_cancel]

/-! Facts about the expected column names and their merge suffixes. -/

theorem expCols_nodup : EXPECTED_COLUMNS.Nodup := by decide

theorem exp_ne_old : ∀ x ∈ EXPECTED_COLUMNS, ∀ y ∈ EXPECTED_COLUMNS,
    x ≠ y ++ "_old" := by decide

theorem exp_ne_new : ∀ x ∈ EXPECTED_COLUMNS, ∀ y ∈ EXPECTED_COLUMNS,
    x ≠ y ++ "_new" := by decide

theorem exp_old_inj : ∀ x ∈ EXPECTED_COLUMNS, ∀ y ∈ EXPECTED_COLUMNS,
    (x ++ "_old" = y ++ "_old") ↔ x = y := by decide

theorem exp_new_inj : ∀ x ∈ EXPECTED_COLUMNS, ∀ y ∈ EXPECTED_COLUMNS,
    (x ++ "_new" = y ++ "_new") ↔ x = y := by decide

theorem exp_old_ne_new : ∀ x ∈ EXPECTED_COLUMNS, ∀ y ∈ EXPECTED_COLUMNS,
    x ++ "_old" ≠ y ++ "_new" := by decide

theorem colIdx_eq_none_iff {cs : List String} {c : String} :
    colIdx cs c = none ↔ c ∉ cs := by
  induction cs with
  | nil => simp [colIdx]
  | cons a t ih =>
    by_cases ha : a = c
    · simp [colIdx, ha]
    · simp only [colIdx, if_neg ha, Option.map_eq_none', ih, List.mem_cons]
      constructor
      · intro h hm
        rcases hm with hm | hm
        · exact ha hm.symm
        · exact h hm
      · intro h hm
        exact h (Or.inr hm)

/-! Characterization of label access on a merged row, for a canonical left
frame. -/

theorem mGet_merged_old (L R : DF) (k : String) (lr rr : Option (List Val))
    (hL : L.cols = EXPECTED_COLUMNS)
    (hsub : ∀ c ∈ R.cols, c ∈ EXPECTED_COLUMNS)
    {c0 : String} (hc0 : c0 ∈ EXPECTED_COLUMNS) (hkc : c0 ≠ keyColumn) :
    mGet (mergeColsFn L.cols R.cols) (mergedRowOf L R k lr rr) (c0 ++ "_old") =
      if c0 ∈ R.cols then some (sideCell L.cols lr c0) else none := by
  rw [mergeColsFn, mergedRowOf, hL]
  have hlen : ∀ (f : String → Val),
      (EXPECTED_COLUMNS.map f).length = (EXPECTED_COLUMNS.map (sfxL R.cols)).length := by
    intro f
    simp
  by_cases hmem : c0 ∈ R.cols
  · -- name lives in the left part of the merged labels
    have hiff : ∀ x ∈ EXPECTED_COLUMNS,
        ((sfxL R.cols x == c0 ++ "_old") = true ↔ x = c0) := by
      intro x hx
      rw [beq_iff_eq, sfxL]
      by_cases hcond : x ≠ keyColumn ∧ x ∈ R.cols
      · rw [if_pos hcond, exp_old_inj x hx c0 hc0]
      · rw [if_neg hcond]
        constructor
        · intro he
          exact absurd he (exp_ne_old x hx c0 hc0)
        · intro he
          subst he
          exact absurd ⟨hkc, hmem⟩ hcond
    have hfind := find?_congr_unique hiff
    rw [if_pos hc0] at hfind
    have hcol : colIdx (EXPECTED_COLUMNS.map (sfxL R.cols)) (c0 ++ "_old") ≠ none := by
      intro hnone
      have hnm : (c0 ++ "_old") ∉ EXPECTED_COLUMNS.map (sfxL R.cols) :=
        colIdx_eq_none_iff.mp hnone
      apply hnm
      have hsx : sfxL R.cols c0 = c0 ++ "_old" := by
        rw [sfxL, if_pos ⟨hkc, hmem⟩]
      exact hsx ▸ List.mem_map_of_mem (sfxL R.cols) hc0
    rcases Option.ne_none_iff_exists'.mp hcol with ⟨i, hi⟩
    rw [mGet_append_left (hlen _) hi, mGet_map_map, hfind, if_pos hmem,
      Option.map_some']
    rw [if_neg hkc]
  · -- the name is nowhere in the merged labels
    have hleftnone : ∀ x ∈ EXPECTED_COLUMNS,
        ((sfxL R.cols x == c0 ++ "_old") = false) := by
      intro x hx
      rw [beq_eq_false_iff_ne, sfxL]
      by_cases hcond : x ≠ keyColumn ∧ x ∈ R.cols
      · rw [if_pos hcond]
        intro he
        exact hmem ((exp_old_inj x hx c0 hc0).mp he ▸ hcond.2)
      · rw [if_neg hcond]
        exact exp_ne_old x hx c0 hc0
    have hcolnone : colIdx (EXPECTED_COLUMNS.map (sfxL R.cols)) (c0 ++ "_old") = none := by
      rw [colIdx_eq_none_iff]
      intro hm
      rcases List.mem_map.mp hm with ⟨x, hx, hxe⟩
      have hfx := hleftnone x hx
      rw [beq_eq_false_iff_ne] at hfx
      exact hfx hxe
    rw [mGet_append_right (hlen _) hcolnone, if_neg hmem, mGet_map_map,
      find?_none_of ?_]
    · rfl
    · intro x hx
      rw [beq_eq_false_iff_ne]
      have hxr : x ∈ R.cols := List.mem_of_mem_filter hx
      have hxe : x ∈ EXPECTED_COLUMNS := hsub x hxr
      rw [sfxR, if_pos (hL ▸ hxe)]
      intro he
      exact exp_old_ne_new c0 hc0 x hxe he.symm

theorem mGet_merged_new (L R : DF) (k : String) (lr rr : Option (List Val))
    (hL : L.cols = EXPECTED_COLUMNS)
    (hsub : ∀ c ∈ R.cols, c ∈ EXPECTED_COLUMNS)
    {c0 : String} (hc0 : c0 ∈ EXPECTED_COLUMNS) (hkc : c0 ≠ keyColumn) :
    mGet (mergeColsFn L.cols R.cols) (mergedRowOf L R k lr rr) (c0 ++ "_new") =
      if c0 ∈ R.cols then some (sideCell R.cols rr c0) else none := by
  rw [mergeColsFn, mergedRowOf, hL]
  have hlen : ∀ (f : String → Val),
      (EXPECTED_COLUMNS.map f).length = (EXPECTED_COLUMNS.map (sfxL R.cols)).length := by
    intro f
    simp
  -- the left labels never carry a `_new` suffix
  have hleftnone : ∀ x ∈ EXPECTED_COLUMNS,
      ((sfxL R.cols x == c0 ++ "_new") = false) := by
    intro x hx
    rw [beq_eq_false_iff_ne, sfxL]
    by_cases hcond : x ≠ keyColumn ∧ x ∈ R.cols
    · rw [if_pos hcond]
      exact exp_old_ne_new x hx c0 hc0
    · rw [if_neg hcond]
      exact exp_ne_new x hx c0 hc0
  have hcolnone : colIdx (EXPECTED_COLUMNS.map (sfxL R.cols)) (c0 ++ "_new") = none := by
    rw [colIdx_eq_none_iff]
    intro hm
    rcases List.mem_map.mp hm with ⟨x, hx, hxe⟩
    have hfx := hleftnone x hx
    rw [beq_eq_false_iff_ne] at hfx
    exact hfx hxe
  rw [mGet_append_right (hlen _) hcolnone, mGet_map_map]
  have hiff : ∀ x ∈ R.cols.filter (fun c => c ≠ keyColumn),
      ((sfxR EXPECTED_COLUMNS x == c0 ++ "_new") = true ↔ x = c0) := by
    intro x hx
    have hxr : x ∈ R.cols := List.mem_of_mem_filter hx
    have hxe : x ∈ EXPECTED_COLUMNS := hsub x hxr
    rw [beq_iff_eq, sfxR, if_pos hxe]
    exact exp_new_inj x hxe c0 hc0
  rw [find?_congr_unique hiff]
  by_cases hmem : c0 ∈ R.cols
  · have hcf : c0 ∈ R.cols.filter (fun c => c ≠ keyColumn) := by
      rw [List.mem_filter]
      exact ⟨hmem, by simp [hkc]⟩
    rw [if_pos hcf, if_pos hmem, Option.map_some']
  · have hcf : c0 ∉ R.cols.filter (fun c => c ≠ keyColumn) := by
      intro hm
      exact hmem (List.mem_of_mem_filter hm)
    rw [if_neg hcf, if_neg hmem, Option.map_none']

theorem mGet_merged_plain (L R : DF) (k : String) (lr rr : Option (List Val))
    (hL : L.cols = EXPECTED_COLUMNS)
    (hsub : ∀ c ∈ R.cols, c ∈ EXPECTED_COLUMNS)
    {c0 : String} (hc0 : c0 ∈ EXPECTED_COLUMNS) (hkc : c0 ≠ keyColumn) :
    mGet (mergeColsFn L.cols R.cols) (mergedRowOf L R k lr rr) c0 =
      if c0 ∈ R.cols then none else some (sideCell L.cols lr c0) := by
  rw [mergeColsFn, mergedRowOf, hL]
  have hlen : ∀ (f : String → Val),
      (EXPECTED_COLUMNS.map f).length = (EXPECTED_COLUMNS.map (sfxL R.cols)).length := by
    intro f
    simp
  by_cases hmem : c0 ∈ R.cols
  · -- the left label got suffixed away and no right label equals `c0`
    have hleftnone : ∀ x ∈ EXPECTED_COLUMNS,
        ((sfxL R.cols x == c0) = false) := by
      intro x hx
      rw [beq_eq_false_iff_ne, sfxL]
      by_cases hcond : x ≠ keyColumn ∧ x ∈ R.cols
      · rw [if_pos hcond]
        intro he
        exact exp_ne_old c0 hc0 x hx he.symm
      · rw [if_neg hcond]
        intro he
        subst he
        exact hcond ⟨hkc, hmem⟩
    have hcolnone : colIdx (EXPECTED_COLUMNS.map (sfxL R.cols)) c0 = none := by
      rw [colIdx_eq_none_iff]
      intro hm
      rcases List.mem_map.mp hm with ⟨x, hx, hxe⟩
      have hfx := hleftnone x hx
      rw [beq_eq_false_iff_ne] at hfx
      exact hfx hxe
    rw [mGet_append_right (hlen _) hcolnone, mGet_map_map, if_pos hmem,
      find?_none_of ?_]
    · rfl
    · intro x hx
      rw [beq_eq_false_iff_ne]
      have hxr : x ∈ R.cols := List.mem_of_mem_filter hx
      have hxe : x ∈ EXPECTED_COLUMNS := hsub x hxr
      rw [sfxR, if_pos hxe]
      intro he
      exact exp_ne_new c0 hc0 x hxe he.symm
  · -- the left label survives unsuffixed
    have hiff : ∀ x ∈ EXPECTED_COLUMNS,
        ((sfxL R.cols x == c0) = true ↔ x = c0) := by
      intro x hx
      rw [beq_iff_eq, sfxL]
      by_cases hcond : x ≠ keyColumn ∧ x ∈ R.cols
      · rw [if_pos hcond]
        constructor
        · intro he
          exact absurd he.symm (exp_ne_old c0 hc0 x hx)
        · intro he
          subst he
          exact absurd hcond.2 hmem
      · rw [if_neg hcond]
    have hfind := find?_congr_unique hiff
    rw [if_pos hc0] at hfind
    have hcol : colIdx (EXPECTED_COLUMNS.map (sfxL R.cols)) c0 ≠ none := by
      intro hnone
      have hnm : c0 ∉ EXPECTED_COLUMNS.map (sfxL R.cols) :=
        colIdx_eq_none_iff.mp hnone
      apply hnm
      have hsx : sfxL R.cols c0 = c0 := by
        rw [sfxL, if_neg ?_]
        intro hcond
        exact hmem hcond.2
      exact hsx ▸ List.mem_map_of_mem (sfxL R.cols) hc0
    rcases Option.ne_none_iff_exists'.mp hcol with ⟨i, hi⟩
    rw [mGet_append_left (hlen _) hi, mGet_map_map, hfind, if_neg hmem,
      Option.map_some']
    rw [if_neg hkc]

theorem mGet_merged_key (L R : DF) (k : String) (lr rr : Option (List Val))
    (hL : L.cols = EXPECTED_COLUMNS) :
    mGet (mergeColsFn L.cols R.cols) (mergedRowOf L R k lr rr) keyColumn =
      some (Val.vStr k) := by
  rw [mergeColsFn, mergedRowOf, hL]
  have hlen : ∀ (f : String → Val),
      (EXPECTED_COLUMNS.map f).length = (EXPECTED_COLUMNS.map (sfxL R.cols)).length := by
    intro f
    simp
  have hkey : keyColumn ∈ EXPECTED_COLUMNS := by decide
  have hiff : ∀ x ∈ EXPECTED_COLUMNS,
      ((sfxL R.cols x == keyColumn) = true ↔ x = keyColumn) := by
    intro x hx
    rw [beq_iff_eq, sfxL]
    by_cases hcond : x ≠ keyColumn ∧ x ∈ R.cols
    · rw [if_pos hcond]
      constructor
      · intro he
        exact absurd he.symm (exp_ne_old keyColumn hkey x hx)
      · intro he
        exact absurd he hcond.1
    · rw [if_neg hcond]
  have hfind := find?_congr_unique hiff
  rw [if_pos hkey] at hfind
  have hcol : colIdx (EXPECTED_COLUMNS.map (sfxL R.cols)) keyColumn ≠ none := by
    intro hnone
    have hnm : keyColumn ∉ EXPECTED_COLUMNS.map (sfxL R.cols) :=
      colIdx_eq_none_iff.mp hnone
    apply hnm
    have hsx : sfxL R.cols keyColumn = keyColumn := by
      rw [sfxL, if_neg ?_]
      intro hcond
      exact hcond.1 rfl
    exact hsx ▸ List.mem_map_of_mem (sfxL R.cols) hkey
  rcases Option.ne_none_iff_exists'.mp hcol with ⟨i, hi⟩
  rw [mGet_append_left (hlen _) hi, mGet_map_map, hfind, Option.map_some']
  rw [if_pos rfl]

/-! Shape of the per-branch row dictionaries. -/

theorem lookup_keyed_map {l : List String} (f : String → Val) {c : String}
    (h : c ∈ l) :
    (l.map (fun x => (x, f x))).lookup c = some (f c) := by
  induction l with
  | nil => cases h
  | cons a t ih =>
    by_cases ha : a = c
    · subst ha
      simp [List.lookup]
    · have hct : c ∈ t := by
        rcases List.mem_cons.mp h with h1 | h1
        · exact absurd h1.symm ha
        · exact h1
      have hne : (c == a) = false := beq_eq_false_iff_ne.mpr (fun he => ha he.symm)
      simp only [List.map_cons, List.lookup, hne]
      exact ih hct

theorem setField_keyed_map (l : List String) (f : String → Val) (t : String)
    (v : Val) :
    setField (l.map (fun c => (c, f c))) t v =
      l.map (fun c => (c, if c = t then v else f c)) := by
  induction l with
  | nil => rfl
  | cons a tl ih =>
    simp only [List.map_cons, setField, List.map_cons] at ih ⊢
    by_cases ha : a = t
    · subst ha
      simp only [if_pos rfl, if_true, eq_self_iff_true]
      rw [ih]
    · simp only [if_neg ha]
      rw [ih]

theorem safeguard_keyed (f : String → Val) :
    safeguard (EXPECTED_COLUMNS.map (fun c => (c, f c))) =
      EXPECTED_COLUMNS.map (fun c => (c, f c)) := by
  rw [safeguard]
  have hnil : EXPECTED_COLUMNS.filter
      (fun c => ((EXPECTED_COLUMNS.map (fun x => (x, f x))).lookup c).isNone) = [] := by
    rw [List.filter_eq_nil_iff]
    intro c hc
    rw [lookup_keyed_map f hc]
    simp
  rw [hnil, List.map_nil, List.append_nil]

theorem finalCast_keyed (f : String → Val) :
    finalCastVals (EXPECTED_COLUMNS.map (fun c => (c, f c))) =
      EXPECTED_COLUMNS.map (fun c => castCol c (f c)) := by
  rw [finalCastVals]
  apply List.map_congr_left
  intro c hc
  rw [lookup_keyed_map f hc]
  rfl

theorem rowLeftOnly_eq (mcols : List String) (get : String → Option Val)
    (k now : String) :
    rowLeftOnly mcols get k now =
      EXPECTED_COLUMNS.map (fun c => (c, fLeftFinal mcols get k now c)) := by
  rw [rowLeftOnly]
  have hst : ("Status" : String) ∈ EXPECTED_COLUMNS := by decide
  have hnt : ("Notes" : String) ∈ EXPECTED_COLUMNS := by decide
  rw [lookup_keyed_map _ hst, lookup_keyed_map _ hnt]
  simp only [Option.getD_some]
  rw [setField_keyed_map, setField_keyed_map]
  apply List.map_congr_left
  intro c _
  rw [fLeftFinal]

theorem processMergedRow_both (mcols : List String) (now k : String)
    (mv : List Val) :
    processMergedRow mcols now (MergeTag.both, k, mv) =
      EXPECTED_COLUMNS.map (fun c => castCol c (fBoth (mGet mcols mv) k c)) := by
  show finalCastVals (safeguard
    (EXPECTED_COLUMNS.map (fun c => (c, fBoth (mGet mcols mv) k c)))) = _
  rw [safeguard_keyed, finalCast_keyed]

theorem processMergedRow_right (mcols : List String) (now k : String)
    (mv : List Val) :
    processMergedRow mcols now (MergeTag.rightOnly, k, mv) =
      EXPECTED_COLUMNS.map (fun c => castCol c (fRight (mGet mcols mv) k c)) := by
  show finalCastVals (safeguard
    (EXPECTED_COLUMNS.map (fun c => (c, fRight (mGet mcols mv) k c)))) = _
  rw [safeguard_keyed, finalCast_keyed]

theorem processMergedRow_left (mcols : List String) (now k : String)
    (mv : List Val) :
    processMergedRow mcols now (MergeTag.leftOnly, k, mv) =
      EXPECTED_COLUMNS.map
        (fun c => castCol c (fLeftFinal mcols (mGet mcols mv) k now c)) := by
  show finalCastVals (safeguard (rowLeftOnly mcols (mGet mcols mv) k now)) = _
  rw [rowLeftOnly_eq, safeguard_keyed, finalCast_keyed]

theorem cell_keyed (h : String → Val) {c : String} (hc : c ∈ EXPECTED_COLUMNS) :
    cellOf EXPECTED_COLUMNS (EXPECTED_COLUMNS.map h) c = h c :=
  cell_map h hc

/-! Structure of the outer merge. -/

theorem map_filter_eq {α β : Type} (l : List α) (f : α → β) (p : β → Bool) :
    (l.filter (fun x => p (f x))).map f = (l.map f).filter p := by
  induction l with
  | nil => rfl
  | cons a t ih =>
    by_cases hp : p (f a) = true
    · simp [List.filter_cons, hp, ih]
    · simp only [Bool.not_eq_true] at hp
      simp [List.filter_cons, hp, ih]

theorem filter_beq_length {α : Type} (l : List α) (f : α → String) (k : String) :
    (l.filter (fun x => f x == k)).length = (l.map f).count k := by
  induction l with
  | nil => rfl
  | cons a t ih =>
    by_cases hp : f a = k
    · subst hp
      simp [List.filter_cons, List.count_cons, ih]
    · have hb : (f a == k) = false := beq_eq_false_iff_ne.mpr hp
      simp [List.filter_cons, hb, List.count_cons, ih, hp]

theorem all_keys_ne_iff (L : DF) (s : String) :
    (L.rows.all (fun lr => keyStrOf L lr != s) = true) ↔ s ∉ normKeys L := by
  rw [List.all_eq_true]
  constructor
  · intro h hm
    rcases List.mem_map.mp hm with ⟨lr, hlr, he⟩
    exact bne_iff_ne.mp (h lr hlr) he
  · intro h lr hlr
    rw [bne_iff_ne]
    intro he
    exact h (he ▸ List.mem_map_of_mem _ hlr)


theorem rightFilter_eq (L R : DF) :
    R.rows.filter (fun rr => L.rows.all (fun lr => keyStrOf L lr != keyStrOf R rr)) =
      R.rows.filter (fun rr => decide (keyStrOf R rr ∉ normKeys L)) := by
  apply List.filter_congr
  intro rr _
  by_cases h : keyStrOf R rr ∈ normKeys L
  · have h1 : (L.rows.all (fun lr => keyStrOf L lr != keyStrOf R rr)) = false := by
      cases hb : (L.rows.all (fun lr => keyStrOf L lr != keyStrOf R rr)) with
      | false => rfl
      | true => exact absurd h ((all_keys_ne_iff L _).mp hb)
    rw [h1, decide_eq_false ?_]
    intro hn
    exact hn h
  · rw [(all_keys_ne_iff L _).mpr h, decide_eq_true h]

theorem flatMap_length_one {α β : Type} (l : List α) (f : α → List β)
    (h : ∀ a ∈ l, (f a).length = 1) : (l.flatMap f).length = l.length := by
  induction l with
  | nil => rfl
  | cons a t ih =>
    rw [List.flatMap_cons, List.length_append, h a (List.mem_cons_self a t),
      ih (fun x hx => h x (List.mem_cons_of_mem a hx)), List.length_cons]
    omega

theorem flatMap_map_single {α β γ : Type} (l : List α) (f : α → List β)
    (g : β → γ) (key : α → γ)
    (h : ∀ a ∈ l, (f a).map g = [key a]) :
    (l.flatMap f).map g = l.map key := by
  induction l with
  | nil => rfl
  | cons a t ih =>
    rw [List.flatMap_cons, List.map_append, h a (List.mem_cons_self a t),
      ih (fun x hx => h x (List.mem_cons_of_mem a hx)), List.map_cons,
      List.singleton_append]

theorem block_length_one (L R : DF) (hR : (normKeys R).Nodup) (lr : List Val) :
    (let k := keyStrOf L lr
     let ms := R.rows.filter (fun rr => keyStrOf R rr == k)
     if ms.isEmpty then [(MergeTag.leftOnly, k, mergedRowOf L R k (some lr) none)]
     else ms.map (fun rr => (MergeTag.both, k, mergedRowOf L R k (some lr) (some rr)))).length
      = 1 := by
  simp only
  set k := keyStrOf L lr with hk
  set ms := R.rows.filter (fun rr => keyStrOf R rr == k) with hms
  by_cases he : ms.isEmpty
  · rw [if_pos he]
    rfl
  · rw [if_neg he, List.length_map]
    have hlen : ms.length = (normKeys R).count k := by
      rw [hms, filter_beq_length]
      rfl
    have hle : (normKeys R).count k ≤ 1 := List.nodup_iff_count_le_one.mp hR k
    have hpos : 0 < ms.length := by
      cases hms2 : ms with
      | nil => rw [hms2] at he; simp at he
      | cons x xs => simp [hms2]
    omega

theorem outerMerge_length (L R : DF) (hR : (normKeys R).Nodup) :
    (outerMergeRows L R).length =
      L.rows.length + ((normKeys R).filter (fun s => decide (s ∉ normKeys L))).length := by
  rw [outerMergeRows, List.length_append]
  congr 1
  · exact flatMap_length_one _ _ (fun lr _ => block_length_one L R hR lr)
  · rw [List.length_map, rightFilter_eq]
    have hmf := map_filter_eq R.rows (keyStrOf R) (fun s => decide (s ∉ normKeys L))
    have hlm := congrArg List.length hmf
    rw [List.length_map] at hlm
    rw [hlm]
    rfl

theorem outerMerge_keys (L R : DF) (hR : (normKeys R).Nodup) :
    (outerMergeRows L R).map (fun t => t.2.1) =
      normKeys L ++ (normKeys R).filter (fun s => decide (s ∉ normKeys L)) := by
  rw [outerMergeRows, List.map_append]
  congr 1
  · apply flatMap_map_single _ _ _ (fun lr => keyStrOf L lr)
    intro lr _
    simp only
    set k := keyStrOf L lr with hk
    set ms := R.rows.filter (fun rr => keyStrOf R rr == k) with hms
    by_cases he : ms.isEmpty
    · rw [if_pos he]
      rfl
    · rw [if_neg he, List.map_map]
      have hlen : ms.length = 1 := by
        have hcnt : ms.length = (normKeys R).count k := by
          rw [hms, filter_beq_length]
          rfl
        have hle : (normKeys R).count k ≤ 1 := List.nodup_iff_count_le_one.mp hR k
        have hpos : 0 < ms.length := by
          cases hms2 : ms with
          | nil => rw [hms2] at he; simp at he
          | cons x xs => simp [hms2]
        omega
      have : ms.map ((fun (t : MergeTag × String × List Val) => t.2.1) ∘
          (fun rr => (MergeTag.both, k, mergedRowOf L R k (some lr) (some rr)))) =
          ms.map (fun _ => k) := by
        apply List.map_congr_left
        intro rr _
        rfl
      rw [this, List.map_const']
      rw [hlen]
      rfl
  · rw [rightFilter_eq, List.map_map]
    have : (R.rows.filter (fun rr => decide (keyStrOf R rr ∉ normKeys L))).map
        ((fun (t : MergeTag × String × List Val) => t.2.1) ∘
         (fun rr => (MergeTag.rightOnly, keyStrOf R rr,
                     mergedRowOf L R (keyStrOf R rr) none (some rr)))) =
        (R.rows.filter (fun rr => decide (keyStrOf R rr ∉ normKeys L))).map (keyStrOf R) := by
      apply List.map_congr_left
      intro rr _
      rfl
    rw [this]
    exact map_filter_eq R.rows (keyStrOf R) (fun s => decide (s ∉ normKeys L))

theorem outerMerge_mem {L R : DF} {x : MergeTag × String × List Val}
    (hx : x ∈ outerMergeRows L R) :
    (x.1 = MergeTag.both → ∃ lr ∈ L.rows, ∃ rr ∈ R.rows,
        keyStrOf L lr = x.2.1 ∧ keyStrOf R rr = x.2.1 ∧
        x.2.2 = mergedRowOf L R x.2.1 (some lr) (some rr)) ∧
    (x.1 = MergeTag.leftOnly → ∃ lr ∈ L.rows,
        keyStrOf L lr = x.2.1 ∧ x.2.1 ∉ normKeys R ∧
        x.2.2 = mergedRowOf L R x.2.1 (some lr) none) ∧
    (x.1 = MergeTag.rightOnly → ∃ rr ∈ R.rows,
        keyStrOf R rr = x.2.1 ∧ x.2.1 ∉ normKeys L ∧
        x.2.2 = mergedRowOf L R x.2.1 none (some rr)) := by
  rw [outerMergeRows] at hx
  rcases List.mem_append.mp hx with hx1 | hx2
  · rcases List.mem_flatMap.mp hx1 with ⟨lr, hlr, hblock⟩
    simp only at hblock
    by_cases he : (R.rows.filter (fun rr => keyStrOf R rr == keyStrOf L lr)).isEmpty
    · rw [if_pos he] at hblock
      have hxe : x = (MergeTag.leftOnly, keyStrOf L lr,
          mergedRowOf L R (keyStrOf L lr) (some lr) none) := by
        rcases List.mem_singleton.mp hblock with h
        exact h
      subst hxe
      refine ⟨?_, ?_, ?_⟩
      · intro h
        cases h
      · intro _
        refine ⟨lr, hlr, rfl, ?_, rfl⟩
        intro hm
        rcases List.mem_map.mp hm with ⟨rr, hrr, hre⟩
        have hnil := List.isEmpty_iff.mp he
        have : rr ∈ R.rows.filter (fun rr => keyStrOf R rr == keyStrOf L lr) := by
          rw [List.mem_filter]
          exact ⟨hrr, beq_iff_eq.mpr hre⟩
        rw [hnil] at this
        cases this
      · intro h
        cases h
    · rw [if_neg he] at hblock
      rcases List.mem_map.mp hblock with ⟨rr, hrrms, hxe⟩
      have hrmem := List.mem_filter.mp hrrms
      subst hxe
      refine ⟨?_, ?_, ?_⟩
      · intro _
        exact ⟨lr, hlr, rr, hrmem.1, rfl, beq_iff_eq.mp hrmem.2, rfl⟩
      · intro h
        cases h
      · intro h
        cases h
  · rcases List.mem_map.mp hx2 with ⟨rr, hrfil, hxe⟩
    have hrmem := List.mem_filter.mp hrfil
    subst hxe
    refine ⟨?_, ?_, ?_⟩
    · intro h
      cases h
    · intro h
      cases h
    · intro _
      exact ⟨rr, hrmem.1, rfl, (all_keys_ne_iff L _).mp hrmem.2, rfl⟩

theorem outerMerge_left_mem {L R : DF} {lr : List Val} (hlr : lr ∈ L.rows)
    (hnot : keyStrOf L lr ∉ normKeys R) :
    (MergeTag.leftOnly, keyStrOf L lr,
      mergedRowOf L R (keyStrOf L lr) (some lr) none) ∈ outerMergeRows L R := by
  rw [outerMergeRows]
  apply List.mem_append_left
  apply List.mem_flatMap.mpr
  refine ⟨lr, hlr, ?_⟩
  simp only
  have hnil : R.rows.filter (fun rr => keyStrOf R rr == keyStrOf L lr) = [] := by
    rw [List.filter_eq_nil_iff]
    intro rr hrr hbe
    exact hnot ((beq_iff_eq.mp hbe) ▸ List.mem_map_of_mem _ hrr)
  rw [hnil]
  simp

/-! Plumbing lemmas for the stages of `process_data`. -/

theorem get?_set_self (l : List Val) (i : Nat) (a : Val) :
    (l.set i a).get? i = (l.get? i).map (fun _ => a) := by
  induction l generalizing i with
  | nil => simp
  | cons x t ih =>
    cases i with
    | zero => rfl
    | succ j => simpa using ih j

theorem get?_set_ne (l : List Val) {i j : Nat} (a : Val) (h : i ≠ j) :
    (l.set i a).get? j = l.get? j := by
  induction l generalizing i j with
  | nil => simp
  | cons x t ih =>
    cases i with
    | zero =>
      cases j with
      | zero => exact absurd rfl h
      | succ j2 => rfl
    | succ i2 =>
      cases j with
      | zero => rfl
      | succ j2 => simpa using ih (fun he => h (by omega))

theorem sanitizeCols_rows (df : DF) : (sanitizeCols df).rows = df.rows := by
  rw [sanitizeCols]
  by_cases h : df.cols.all (fun c => c = pyStrip c)
  · rw [if_pos h]
  · rw [if_neg h]

theorem astypeKey_cols (df : DF) : (astypeKey df).cols = df.cols := by
  rw [astypeKey]
  cases colIdx df.cols keyColumn with
  | none => rfl
  | some i => rfl

theorem keyStr_setKeyCell {cols : List String} {i : Nat}
    (hc : colIdx cols keyColumn = some i) (r : List Val) :
    pyStr (cellOf cols (setKeyCell i r) keyColumn) = pyStr (cellOf cols r keyColumn) := by
  rw [cellOf, cellOf, hc]
  show pyStr (((setKeyCell i r).get? i).getD Val.vNull) =
    pyStr ((r.get? i).getD Val.vNull)
  rw [setKeyCell, get?_set_self]
  cases hg : r.get? i with
  | none => rfl
  | some v => rfl

theorem normKeys_astypeKey (df : DF) : normKeys (astypeKey df) = normKeys df := by
  rw [normKeys, normKeys, astypeKey]
  cases hc : colIdx df.cols keyColumn with
  | none => rfl
  | some i =>
    simp only [List.map_map]
    apply List.map_congr_left
    intro r _
    exact keyStr_setKeyCell hc r

theorem normKeys_restrict {df : DF} {cs : List String}
    (hkc : keyColumn ∈ cs) : normKeys (restrict df cs) = normKeys df := by
  rw [normKeys, normKeys, restrict]
  simp only [List.map_map]
  apply List.map_congr_left
  intro r _
  show pyStr (cellOf cs (cs.map (fun c => cellOf df.cols r c)) keyColumn) = _
  rw [cell_map _ hkc]
  rfl

theorem maybeDropHash_cols_key {df : DF} (hk : keyColumn ∈ df.cols) :
    keyColumn ∈ (maybeDropHash df).cols := by
  rw [maybeDropHash]
  by_cases h : "#" ∈ df.cols ∧ "#" ∉ EXPECTED_COLUMNS
  · rw [if_pos h]
    show keyColumn ∈ df.cols.filter (fun c => c ≠ "#")
    rw [List.mem_filter]
    refine ⟨hk, by decide⟩
  · rw [if_neg h]
    exact hk

theorem normKeys_maybeDropHash {df : DF} (hk : keyColumn ∈ df.cols) :
    normKeys (maybeDropHash df) = normKeys df := by
  rw [maybeDropHash]
  by_cases h : "#" ∈ df.cols ∧ "#" ∉ EXPECTED_COLUMNS
  · rw [if_pos h]
    apply normKeys_restrict
    rw [List.mem_filter]
    exact ⟨hk, by decide⟩
  · rw [if_neg h]

theorem key_mem_prepNew {b : DF} (hk : keyColumn ∈ (sanitizeCols b).cols) :
    keyColumn ∈ (prepNew b).cols := by
  rw [prepNew]
  exact maybeDropHash_cols_key (astypeKey_cols (sanitizeCols b) ▸ hk)

theorem normKeys_prepNew {b : DF} (hk : keyColumn ∈ (sanitizeCols b).cols) :
    normKeys (prepNew b) = normKeys (sanitizeCols b) := by
  rw [prepNew, normKeys_maybeDropHash (astypeKey_cols (sanitizeCols b) ▸ hk),
    normKeys_astypeKey]

theorem key_mem_rcOf {b : DF} (hk : keyColumn ∈ (sanitizeCols b).cols) :
    keyColumn ∈ rcOf b := by
  rw [rcOf, List.mem_filter]
  refine ⟨by decide, ?_⟩
  rw [decide_eq_true_eq]
  exact ⟨key_mem_prepNew hk, by decide, by decide⟩

theorem rcOf_sub (b : DF) : ∀ c ∈ rcOf b, c ∈ EXPECTED_COLUMNS := by
  intro c hc
  exact List.mem_of_mem_filter hc

theorem rcOf_mem_prepNew (b : DF) : ∀ c ∈ rcOf b, c ∈ (prepNew b).cols := by
  intro c hc
  rw [rcOf, List.mem_filter, decide_eq_true_eq] at hc
  exact hc.2.1

theorem status_not_mem_rcOf (b : DF) : "Status" ∉ rcOf b := by
  intro hm
  rw [rcOf, List.mem_filter, decide_eq_true_eq] at hm
  exact hm.2.2.1 rfl

theorem notes_not_mem_rcOf (b : DF) : "Notes" ∉ rcOf b := by
  intro hm
  rw [rcOf, List.mem_filter, decide_eq_true_eq] at hm
  exact hm.2.2.2 rfl

theorem rcOf_nodup (b : DF) : (rcOf b).Nodup :=
  List.Nodup.filter _ expCols_nodup

theorem colsFromNew_eq {b : DF} (hk : keyColumn ∈ (sanitizeCols b).cols) :
    colsFromNew b = rcOf b := by
  rw [colsFromNew]
  have hmem : keyColumn ∈ EXPECTED_COLUMNS.filter
      (fun c => c ∈ (prepNew b).cols ∧ c ≠ "Status" ∧ c ≠ "Notes") :=
    key_mem_rcOf hk
  rw [if_neg ?_]
  · rfl
  · intro hcond
    exact hcond.2 hmem

theorem dedupFirstAux_of_nodup (l : List String) (seen : List String)
    (hn : l.Nodup) (hd : ∀ a ∈ l, a ∉ seen) : dedupFirstAux l seen = l := by
  induction l generalizing seen with
  | nil => rfl
  | cons a t ih =>
    rw [dedupFirstAux, if_neg (hd a (List.mem_cons_self a t))]
    congr 1
    apply ih (a :: seen) (List.nodup_cons.mp hn).2
    intro x hx
    simp only [List.mem_cons]
    intro hc
    rcases hc with hc | hc
    · exact (List.nodup_cons.mp hn).1 (hc ▸ hx)
    · exact hd x (List.mem_cons_of_mem a hx) hc

theorem dedupFirst_of_nodup {l : List String} (hn : l.Nodup) :
    dedupFirst l = l :=
  dedupFirstAux_of_nodup l [] hn (fun a _ hm => by cases hm)

theorem validColsOf_eq {b : DF} (hk : keyColumn ∈ (sanitizeCols b).cols) :
    validColsOf b = rcOf b := by
  rw [validColsOf, colsFromNew_eq hk, dedupFirst_of_nodup (rcOf_nodup b)]
  rw [List.filter_eq_self]
  intro c hc
  rw [decide_eq_true_eq]
  exact rcOf_mem_prepNew b c hc

theorem newDataForMerge_eq {b : DF} (hk : keyColumn ∈ (sanitizeCols b).cols) :
    newDataForMerge b = restrict (prepNew b) (rcOf b) := by
  rw [newDataForMerge, validColsOf_eq hk]
  rw [if_neg ?_]
  intro he
  rw [List.isEmpty_iff] at he
  have hmem := key_mem_rcOf hk
  rw [he] at hmem
  cases hmem

theorem newDataForMerge_cols {b : DF} (hk : keyColumn ∈ (sanitizeCols b).cols) :
    (newDataForMerge b).cols = rcOf b := by
  rw [newDataForMerge_eq hk]
  rfl

theorem normKeys_newDataForMerge {b : DF} (hk : keyColumn ∈ (sanitizeCols b).cols) :
    normKeys (newDataForMerge b) = normKeys (sanitizeCols b) := by
  rw [newDataForMerge_eq hk, normKeys_restrict (key_mem_rcOf hk), normKeys_prepNew hk]

theorem prepCur_eq {s : DF} (hs : s.cols = EXPECTED_COLUMNS) :
    prepCur s = astypeKey s := by
  rw [prepCur, if_pos (show keyColumn ∈ s.cols from hs ▸ (by decide)), maybeDropHash,
    if_neg ?_]
  intro hcond
  rw [astypeKey_cols, hs] at hcond
  exact absurd hcond.1 (by decide)

theorem prepCur_cols {s : DF} (hs : s.cols = EXPECTED_COLUMNS) :
    (prepCur s).cols = EXPECTED_COLUMNS := by
  rw [prepCur_eq hs, astypeKey_cols, hs]

theorem normKeys_prepCur {s : DF} (hs : s.cols = EXPECTED_COLUMNS) :
    normKeys (prepCur s) = normKeys s := by
  rw [prepCur_eq hs, normKeys_astypeKey]

theorem colIdx_exp_key : colIdx EXPECTED_COLUMNS keyColumn = some 0 := by decide

theorem prepCur_rows {s : DF} (hs : s.cols = EXPECTED_COLUMNS) :
    (prepCur s).rows = s.rows.map (setKeyCell 0) := by
  rw [prepCur_eq hs, astypeKey]
  have hc : colIdx s.cols keyColumn = some 0 := by
    rw [hs]
    exact colIdx_exp_key
  rw [hc]

theorem cell_setKeyCell_ne {c : String} (hc : c ∈ EXPECTED_COLUMNS)
    (hne : c ≠ keyColumn) (r : List Val) :
    cellOf EXPECTED_COLUMNS (setKeyCell 0 r) c = cellOf EXPECTED_COLUMNS r c := by
  rw [cellOf, cellOf]
  cases hidx : colIdx EXPECTED_COLUMNS c with
  | none => rfl
  | some j =>
    have hj : j ≠ 0 := by
      intro hj0
      subst hj0
      have : ("Invoice #" : String) = c := colIdx_zero (show colIdx ("Invoice #" ::
        ["Order Date", "Turn in Date", "Account", "Invoice Total", "Balance",
         "Salesperson", "Project Coordinator", "Status", "Notes"]) c = some 0 from hidx)
      exact hne this.symm
    show ((setKeyCell 0 r).get? j).getD Val.vNull = (r.get? j).getD Val.vNull
    rw [setKeyCell, get?_set_ne _ _ (show (0 : Nat) ≠ j from fun he => hj he.symm)]

theorem cell_prepCur_ne {s : DF} (hs : s.cols = EXPECTED_COLUMNS) {c : String}
    (hc : c ∈ EXPECTED_COLUMNS) (hne : c ≠ keyColumn) (r : List Val) :
    cellOf (prepCur s).cols (setKeyCell 0 r) c = cellOf s.cols r c := by
  rw [prepCur_cols hs, hs, cell_setKeyCell_ne hc hne]

theorem process_data_ok {b s : DF} (now : String)
    (hk : keyColumn ∈ (sanitizeCols b).cols)
    (hcur : keyColumn ∈ (prepCur s).cols) :
    process_data b s now =
      Except.ok (buildOutput (prepCur s) (newDataForMerge b) now) := by
  rw [process_data, if_pos hk, if_neg ?_, if_pos hcur]
  intro hcond
  exact hcond.2 (key_mem_prepNew hk)

theorem buildOutput_cols (L R : DF) (now : String) :
    (buildOutput L R now).cols = EXPECTED_COLUMNS := rfl

/-! Claim theorems. -/

/-- C4: `process_data` fails (returns no reconciled frame) exactly when the
sanitized incoming batch lacks the key column `'Invoice #'`; for a canonical
persisted snapshot, every batch that carries the key column yields a full
reconciled frame, and the only failure mode is the missing-key error. -/
theorem process_data_fails_iff (b s : DF) (now : String)
    (hs : s.cols = EXPECTED_COLUMNS) :
    ((∃ e, process_data b s now = Except.error e) ↔
      keyColumn ∉ (sanitizeCols b).cols) ∧
    (keyColumn ∉ (sanitizeCols b).cols →
      process_data b s now = Except.error PdError.missingKeyColumn) := by
  have hcur : keyColumn ∈ (prepCur s).cols := by
    rw [prepCur_cols hs]
    decide
  have hfail : keyColumn ∉ (sanitizeCols b).cols →
      process_data b s now = Except.error PdError.missingKeyColumn := by
    intro hk
    rw [process_data, if_neg hk]
  refine ⟨⟨?_, ?_⟩, hfail⟩
  · rintro ⟨e, he⟩ hk
    rw [process_data_ok now hk hcur] at he
    cases he
  · intro hk
    exact ⟨PdError.missingKeyColumn, hfail hk⟩

/-- Witness for the C4 theorem at a concrete batch lacking the key column. -/
theorem process_data_fails_iff_witness :
    snapCanon.cols = EXPECTED_COLUMNS ∧
    (((∃ e, process_data batchNoKey snapCanon "t" = Except.error e) ↔
       keyColumn ∉ (sanitizeCols batchNoKey).cols) ∧
     (keyColumn ∉ (sanitizeCols batchNoKey).cols →
       process_data batchNoKey snapCanon "t" = Except.error PdError.missingKeyColumn)) :=
  ⟨by decide, process_data_fails_iff batchNoKey snapCanon "t" (by decide)⟩

/-- C8: the per-row age classifier of `_prepare_open_jobs_data` returns a
null age and null bucket for a null turn-in date, and otherwise the age
`today - turn_in` together with the bucket given by the inclusive boundaries
0-7, 8-21, 22-49, 50-56 and 57-up (so 7, 8, 21, 22, 49, 50, 56, 57 map to
buckets 1, 2, 2, 3, 3, 4, 4, 5). -/
theorem classify_age_spec :
    (∀ today : Int, classify_age none today = (none, none)) ∧
    (∀ today d : Int,
      classify_age (some d) today = (some (today - d), ageBucket (today - d))) ∧
    (∀ a : Int,
      (ageBucket a = some (ageLabels.get! 0) ↔ 0 ≤ a ∧ a ≤ 7) ∧
      (ageBucket a = some (ageLabels.get! 1) ↔ 8 ≤ a ∧ a ≤ 21) ∧
      (ageBucket a = some (ageLabels.get! 2) ↔ 22 ≤ a ∧ a ≤ 49) ∧
      (ageBucket a = some (ageLabels.get! 3) ↔ 50 ≤ a ∧ a ≤ 56) ∧
      (ageBucket a = some (ageLabels.get! 4) ↔ 57 ≤ a)) := by
  refine ⟨fun today => rfl, fun today d => rfl, fun a => ?_⟩
  unfold ageBucket
  split_ifs with h1 h2 h3 h4 h5 <;>
    refine ⟨Iff.intro (fun ha1 => ?_) (fun hb1 => ?_),
      Iff.intro (fun ha2 => ?_) (fun hb2 => ?_),
      Iff.intro (fun ha3 => ?_) (fun hb3 => ?_),
      Iff.intro (fun ha4 => ?_) (fun hb4 => ?_),
      Iff.intro (fun ha5 => ?_) (fun hb5 => ?_)⟩ <;>
    first
      | rfl
      | omega
      | (exact absurd (Option.some.inj ha1) (by decide))
      | (exact absurd ha1 (by decide))
      | (exact absurd (Option.some.inj ha2) (by decide))
      | (exact absurd ha2 (by decide))
      | (exact absurd (Option.some.inj ha3) (by decide))
      | (exact absurd ha3 (by decide))
      | (exact absurd (Option.some.inj ha4) (by decide))
      | (exact absurd ha4 (by decide))
      | (exact absurd (Option.some.inj ha5) (by decide))
      | (exact absurd ha5 (by decide))

/-! Non-negativity of the monetary coercion on minus-free inputs. -/

theorem digitsVal_nonneg {l : List Char} {n : Nat} (h : digitsVal l = some n) :
    (0 : ℚ) ≤ (n : ℚ) := by
  exact_mod_cast Nat.zero_le n

theorem parseUnsignedQ_nonneg {l : List Char} {q : ℚ}
    (h : parseUnsignedQ l = some q) : 0 ≤ q := by
  rw [parseUnsignedQ] at h
  cases hsp : l.splitOn '.' with
  | nil =>
    rw [hsp] at h
    exact Option.noConfusion h
  | cons ip tl =>
    cases tl with
    | nil =>
      rw [hsp] at h
      dsimp only at h
      by_cases he : ip.isEmpty
      · rw [if_pos he] at h
        exact Option.noConfusion h
      · rw [if_neg he] at h
        cases hd : digitsVal ip with
        | none =>
          rw [hd] at h
          exact Option.noConfusion h
        | some n =>
          rw [hd] at h
          dsimp only at h
          cases h
          exact_mod_cast Nat.zero_le n
    | cons fp tl2 =>
      cases tl2 with
      | nil =>
        rw [hsp] at h
        dsimp only at h
        by_cases he : ip.isEmpty = true ∧ fp.isEmpty = true
        · rw [if_pos he] at h
          exact Option.noConfusion h
        · rw [if_neg he] at h
          cases hd1 : digitsVal ip with
          | none =>
            rw [hd1] at h
            exact Option.noConfusion h
          | some n =>
            cases hd2 : digitsVal fp with
            | none =>
              rw [hd1, hd2] at h
              exact Option.noConfusion h
            | some m =>
              rw [hd1, hd2] at h
              dsimp only at h
              cases h
              apply add_nonneg
              · exact_mod_cast Nat.zero_le n
              · apply div_nonneg
                · exact_mod_cast Nat.zero_le m
                · positivity
      | cons z tl3 =>
        rw [hsp] at h
        exact Option.noConfusion h

theorem mem_of_mem_pyStrip {s : String} {c : Char} (h : c ∈ (pyStrip s).data) :
    c ∈ s.data := by
  rw [pyStrip] at h
  have h1 : c ∈ ((s.data.dropWhile isPyWs).reverse.dropWhile isPyWs).reverse := h
  rw [List.mem_reverse] at h1
  have h2 : c ∈ (s.data.dropWhile isPyWs).reverse :=
    (List.dropWhile_sublist _).mem h1
  rw [List.mem_reverse] at h2
  exact (List.dropWhile_sublist _).mem h2

theorem parseNumQ_nonneg {s : String} {q : ℚ} (hm : ('-') ∉ s.data)
    (h : parseNumQ s = some q) : 0 ≤ q := by
  rw [parseNumQ] at h
  by_cases hneg : ((pyStrip s).data.head? = some '-')
  · exfalso
    apply hm
    apply mem_of_mem_pyStrip
    cases ht : (pyStrip s).data with
    | nil =>
      rw [ht] at hneg
      simp at hneg
    | cons c rest =>
      rw [ht] at hneg
      have hcm : c = '-' := by
        simpa using hneg
      rw [← hcm]
      exact List.mem_cons_self _ _
  · rw [if_neg hneg] at h
    by_cases hpos : ((pyStrip s).data.head? = some '+')
    · rw [if_pos hpos] at h
      exact parseUnsignedQ_nonneg h
    · rw [if_neg hpos] at h
      exact parseUnsignedQ_nonneg h

/-- C9 (amended): the monetary coercion is total, sends every unparseable
value to zero, and is non-negative whenever the value's textual form carries
no minus sign; negative source values, however, pass through with their
sign. -/
theorem coerceMoney_spec (v : Val) :
    (('-') ∉ (pyStr v).data → 0 ≤ coerceMoney v) ∧
    (parseNumQ (moneyCleaned v) = none → coerceMoney v = 0) := by
  constructor
  · intro hm
    rw [coerceMoney]
    cases hp : parseNumQ (moneyCleaned v) with
    | none => exact le_refl 0
    | some q =>
      apply parseNumQ_nonneg ?_ hp
      intro hmem
      apply hm
      rw [moneyCleaned] at hmem
      have h1 : ('-') ∈ ((pyStr v).data.filter (fun c => c ≠ '$')).filter
          (fun c => c ≠ ',') := hmem
      exact List.mem_of_mem_filter (List.mem_of_mem_filter h1)
  · intro hp
    rw [coerceMoney, hp]

/-- Witness for the C9 amended theorem at a concrete minus-free unparseable
monetary string. -/
theorem coerceMoney_spec_witness :
    (('-') ∉ (pyStr (Val.vStr "$1,2a3")).data ∧
     parseNumQ (moneyCleaned (Val.vStr "$1,2a3")) = none) ∧
    (0 ≤ coerceMoney (Val.vStr "$1,2a3") ∧ coerceMoney (Val.vStr "$1,2a3") = 0) :=
  ⟨⟨by decide, by decide⟩,
   ⟨(coerceMoney_spec (Val.vStr "$1,2a3")).1 (by decide),
    (coerceMoney_spec (Val.vStr "$1,2a3")).2 (by decide)⟩⟩

/-- C9 counterexample: a persisted balance of `"-50"` is coerced to the
negative number `-50`, not a non-negative one. -/
theorem coerceMoney_negative_cex :
    coerceMoney (Val.vStr "-50") = -50 ∧ coerceMoney (Val.vStr "-50") < 0 := by
  constructor
  · decide
  · decide

/-- C5 (code evaluation at the failing input): for a continuing record whose
`Salesperson` column is absent from the incoming batch altogether, the
reconciled record's `Salesperson` is null even though the persisted record
carried `"Bob"` — the `both` branch looks only at the suffixed labels and
finds neither. -/
theorem process_data_absent_column_loss :
    (process_data batchKey1 snapBobSalesperson "t").toOption.map
        (fun o => o.rows.map (fun r => cellOf o.cols r "Salesperson")) =
      some [Val.vNull] ∧
    cellOf snapBobSalesperson.cols
      (snapBobSalesperson.rows.getD 0 []) "Salesperson" = Val.vStr "Bob" := by
  constructor
  · decide
  · decide

/-- C6 (code evaluation at the failing input): the key cast is `astype(str)`
with no trimming, so the incoming key `" 123"` does not match the persisted
key `"123"`: the run produces two records (one sentinel-Missing, one New)
instead of one Continuing record — while a numeric key `123` does match
`"123"`. -/
theorem process_data_untrimmed_key :
    (process_data batchWsKey snapKey123 "t").toOption.map
        (fun o => o.rows.map (fun r => cellOf o.cols r "Status")) =
      some [Val.vStr REVIEW_MISSING_STATUS, Val.vStr "New"] ∧
    (process_data batchNumKey snapKey123 "t").toOption.map
        (fun o => o.rows.length) = some 1 := by
  constructor
  · decide
  · decide

set_option maxRecDepth 4000 in
/-- C10 counterexample: `process_data` reads the wall clock inside its
missing-record annotation (data_utils.py line 417), so two calls with
identical DataFrame inputs differ when the internal clock reading differs
— the result is not a function of the two inputs alone. -/
theorem process_data_clock_cex :
    (process_data batchEmptyRows snapCanon "2025-01-01 00:00").toOption.map
        (fun o => o.rows.map (fun r => cellOf o.cols r "Notes")) ≠
    (process_data batchEmptyRows snapCanon "2025-01-02 00:00").toOption.map
        (fun o => o.rows.map (fun r => cellOf o.cols r "Notes")) := by
  decide

set_option maxRecDepth 4000 in
/-- C3 counterexample: with prior notes `"ok\n"`, the missing-record notes
are the prepended alert with the combined text stripped, so the full prior
notes text is not preserved unmodified: the output does not end with
`"ok\n"` (the trailing newline is gone), though the claim as stated requires
the untouched prior notes as the final segment. -/
theorem process_data_notes_strip_cex :
    (process_data batchEmptyRows snapTrailingNl "T").toOption.map
        (fun o => o.rows.map (fun r => cellOf o.cols r "Notes")) =
      some [Val.vStr (pyStrip (alertFull "T" (Val.vStr "Done") ++
        "\n-----\n" ++ "ok\n"))] ∧
    strEndsWith (pyStrip (alertFull "T" (Val.vStr "Done") ++ "\n-----\n" ++ "ok\n"))
      "ok\n" = false ∧
    strEndsWith (alertFull "T" (Val.vStr "Done") ++ "\n-----\n" ++ "ok\n")
      "ok\n" = true := by
  refine ⟨?_, ?_, ?_⟩
  · decide
  · decide
  · decide

/-! The keys and count of the reconciled frame. -/

theorem outRow_key (mcols : List String) (now : String)
    (x : MergeTag × String × List Val) :
    cellOf EXPECTED_COLUMNS (processMergedRow mcols now x) keyColumn =
      Val.vStr x.2.1 := by
  have hkey : keyColumn ∈ EXPECTED_COLUMNS := by decide
  have hkd : keyColumn ∉ dateColsConfig := by decide
  rcases x with ⟨tag, k, mv⟩
  cases tag with
  | both =>
    rw [processMergedRow_both, cell_keyed _ hkey, castCol, if_neg hkd, if_pos rfl]
    rw [fBoth, if_pos rfl]
    rfl
  | rightOnly =>
    rw [processMergedRow_right, cell_keyed _ hkey, castCol, if_neg hkd, if_pos rfl]
    rw [fRight, if_pos rfl]
    rfl
  | leftOnly =>
    rw [processMergedRow_left, cell_keyed _ hkey, castCol, if_neg hkd, if_pos rfl]
    rw [fLeftFinal, if_neg (by decide), if_neg (by decide), fLeftBase, if_pos rfl]
    rfl

theorem normKeys_buildOutput (L R : DF) (now : String)
    (hR : (normKeys R).Nodup) :
    normKeys (buildOutput L R now) =
      normKeys L ++ (normKeys R).filter (fun x => decide (x ∉ normKeys L)) := by
  rw [normKeys, buildOutput]
  show ((outerMergeRows L R).map (processMergedRow (mergeColsFn L.cols R.cols) now)).map
      (fun r => keyStrOf ⟨EXPECTED_COLUMNS, (outerMergeRows L R).map
        (processMergedRow (mergeColsFn L.cols R.cols) now)⟩ r) = _
  rw [List.map_map, ← outerMerge_keys L R hR]
  apply List.map_congr_left
  intro x _
  show keyStrOf _ (processMergedRow (mergeColsFn L.cols R.cols) now x) = x.2.1
  rw [keyStrOf]
  show pyStr (cellOf EXPECTED_COLUMNS (processMergedRow _ now x) keyColumn) = _
  rw [outRow_key]
  rfl

theorem length_filter_split (l : List String) (p : String → Bool) :
    (l.filter p).length + (l.filter (fun x => !(p x))).length = l.length := by
  induction l with
  | nil => rfl
  | cons a t ih =>
    by_cases hp : p a = true
    · simp [List.filter_cons, hp]
      omega
    · simp only [Bool.not_eq_true] at hp
      simp [List.filter_cons, hp]
      omega

/-- C1: when each input carries at most one record per normalized key (and
the snapshot is canonical, the batch keyed), `process_data` returns a frame
with exactly one record per key of the union of both key sets: no key is
dropped or duplicated, and the row count is `|new| + |continuing| +
|missing|`. -/
theorem process_data_partition (b s : DF) (now : String)
    (hs : s.cols = EXPECTED_COLUMNS)
    (hk : keyColumn ∈ (sanitizeCols b).cols)
    (hnb : (normKeys (sanitizeCols b)).Nodup)
    (hns : (normKeys s).Nodup) :
    ∃ out, process_data b s now = Except.ok out ∧
      (normKeys out).Nodup ∧
      (∀ x, x ∈ normKeys out ↔
        (x ∈ normKeys (sanitizeCols b) ∨ x ∈ normKeys s)) ∧
      out.rows.length =
        ((normKeys (sanitizeCols b)).filter
          (fun x => decide (x ∉ normKeys s))).length +
        ((normKeys s).filter
          (fun x => decide (x ∈ normKeys (sanitizeCols b)))).length +
        ((normKeys s).filter
          (fun x => decide (x ∉ normKeys (sanitizeCols b)))).length := by
  have hcur : keyColumn ∈ (prepCur s).cols := by
    rw [prepCur_cols hs]
    decide
  have hRkeys : normKeys (newDataForMerge b) = normKeys (sanitizeCols b) :=
    normKeys_newDataForMerge hk
  have hLkeys : normKeys (prepCur s) = normKeys s := normKeys_prepCur hs
  have hRnodup : (normKeys (newDataForMerge b)).Nodup := by
    rw [hRkeys]
    exact hnb
  have hkeysOut : normKeys (buildOutput (prepCur s) (newDataForMerge b) now) =
      normKeys s ++ (normKeys (sanitizeCols b)).filter
        (fun x => decide (x ∉ normKeys s)) := by
    rw [normKeys_buildOutput _ _ now hRnodup, hRkeys, hLkeys]
  refine ⟨_, process_data_ok now hk hcur, ?_, ?_, ?_⟩
  · rw [hkeysOut]
    apply List.Nodup.append hns (List.Nodup.filter _ hnb)
    intro x hx1 hx2
    have := List.of_mem_filter hx2
    rw [decide_eq_true_eq] at this
    exact this hx1
  · intro x
    rw [hkeysOut, List.mem_append, List.mem_filter]
    constructor
    · rintro (hx | ⟨hx, _⟩)
      · exact Or.inr hx
      · exact Or.inl hx
    · rintro (hx | hx)
      · by_cases hxs : x ∈ normKeys s
        · exact Or.inl hxs
        · exact Or.inr ⟨hx, by simpa using hxs⟩
      · exact Or.inl hx
  · show ((outerMergeRows (prepCur s) (newDataForMerge b)).map _).length = _
    rw [List.length_map, outerMerge_length _ _ hRnodup, hRkeys, hLkeys]
    have hrows : (prepCur s).rows.length = (normKeys s).length := by
      rw [← hLkeys, normKeys, List.length_map]
    rw [hrows]
    have hsplit := length_filter_split (normKeys s)
      (fun x => decide (x ∈ normKeys (sanitizeCols b)))
    have hcongr : (normKeys s).filter
        (fun x => !(decide (x ∈ normKeys (sanitizeCols b)))) =
        (normKeys s).filter (fun x => decide (x ∉ normKeys (sanitizeCols b))) := by
      apply List.filter_congr
      intro x _
      simp
    rw [hcongr] at hsplit
    omega

/-- Witness for the C1 theorem on a concrete disjoint batch/snapshot pair. -/
theorem process_data_partition_witness :
    (snapCanon.cols = EXPECTED_COLUMNS ∧
     keyColumn ∈ (sanitizeCols batchB).cols ∧
     (normKeys (sanitizeCols batchB)).Nodup ∧ (normKeys snapCanon).Nodup) ∧
    (∃ out, process_data batchB snapCanon "t" = Except.ok out ∧
      (normKeys out).Nodup ∧
      (∀ x, x ∈ normKeys out ↔
        (x ∈ normKeys (sanitizeCols batchB) ∨ x ∈ normKeys snapCanon)) ∧
      out.rows.length =
        ((normKeys (sanitizeCols batchB)).filter
          (fun x => decide (x ∉ normKeys snapCanon))).length +
        ((normKeys snapCanon).filter
          (fun x => decide (x ∈ normKeys (sanitizeCols batchB)))).length +
        ((normKeys snapCanon).filter
          (fun x => decide (x ∉ normKeys (sanitizeCols batchB)))).length) :=
  ⟨⟨by decide, by decide, by decide, by decide⟩,
   process_data_partition batchB snapCanon "t" (by decide) (by decide)
     (by decide) (by decide)⟩

/-! Field values of continuing records. -/

theorem processMergedRow_both_user (L R : DF) (now k : String)
    (lr rr : List Val)
    (hL : L.cols = EXPECTED_COLUMNS)
    (hsub : ∀ c ∈ R.cols, c ∈ EXPECTED_COLUMNS)
    {c : String} (hcu : c = "Status" ∨ c = "Notes") (hnotrc : c ∉ R.cols) :
    cellOf EXPECTED_COLUMNS
        (processMergedRow (mergeColsFn L.cols R.cols) now
          (MergeTag.both, k, mergedRowOf L R k (some lr) (some rr))) c =
      (if cellOf L.cols lr c = Val.vNull then
        (if c = "Notes" then Val.vStr "" else Val.vStr "New")
       else cellOf L.cols lr c) := by
  have hc : c ∈ EXPECTED_COLUMNS := by
    rcases hcu with h | h <;> subst h <;> decide
  have hckey : c ≠ keyColumn := by
    rcases hcu with h | h <;> subst h <;> decide
  have hcd : c ∉ dateColsConfig := by
    rcases hcu with h | h <;> subst h <;> decide
  rw [processMergedRow_both, cell_keyed _ hc, castCol, if_neg hcd, if_neg hckey]
  rw [fBoth, if_neg hckey, if_pos hcu]
  have hget := mGet_merged_plain L R k (some lr) (some rr) hL hsub hc hckey
  rw [if_neg hnotrc] at hget
  rw [hget]
  show (if isNull (sideCell L.cols (some lr) c) = true then _ else
    sideCell L.cols (some lr) c) = _
  rw [show sideCell L.cols (some lr) c = cellOf L.cols lr c from rfl]
  cases hv : cellOf L.cols lr c <;> simp [isNull]

theorem keyStr_prepCur_row {s : DF} (hs : s.cols = EXPECTED_COLUMNS)
    (r : List Val) :
    keyStrOf (prepCur s) (setKeyCell 0 r) = keyStrOf s r := by
  rw [keyStrOf, keyStrOf, prepCur_cols hs, hs]
  exact keyStr_setKeyCell colIdx_exp_key r

theorem user_fields_core (b s : DF) (now : String)
    (hs : s.cols = EXPECTED_COLUMNS)
    (hk : keyColumn ∈ (sanitizeCols b).cols)
    (hns : (normKeys s).Nodup) :
    ∀ out, process_data b s now = Except.ok out →
    ∀ r2 ∈ out.rows, ∀ r1 ∈ s.rows,
      keyStrOf s r1 = keyStrOf out r2 →
      keyStrOf out r2 ∈ normKeys (sanitizeCols b) →
      (cellOf out.cols r2 "Status" =
        (if cellOf s.cols r1 "Status" = Val.vNull then Val.vStr "New"
         else cellOf s.cols r1 "Status")) ∧
      (cellOf out.cols r2 "Notes" =
        (if cellOf s.cols r1 "Notes" = Val.vNull then Val.vStr ""
         else cellOf s.cols r1 "Notes")) := by
  have hcur : keyColumn ∈ (prepCur s).cols := by
    rw [prepCur_cols hs]
    decide
  intro out hout r2 hr2 r1 hr1 hkeq hmem
  rw [process_data_ok now hk hcur] at hout
  cases hout
  rcases List.mem_map.mp hr2 with ⟨x, hx, hxe⟩
  have hkey2 : keyStrOf (buildOutput (prepCur s) (newDataForMerge b) now) r2 = x.2.1 := by
    rw [keyStrOf, ← hxe]
    show pyStr (cellOf EXPECTED_COLUMNS (processMergedRow _ now x) keyColumn) = _
    rw [outRow_key]
    rfl
  have hanalysis := outerMerge_mem hx
  rcases x with ⟨tag, k, mv⟩
  simp only at hkey2
  cases tag with
  | leftOnly =>
    exfalso
    rcases hanalysis.2.1 rfl with ⟨lr, _, _, hnotR, _⟩
    apply hnotR
    show k ∈ normKeys (newDataForMerge b)
    rw [normKeys_newDataForMerge hk]
    rw [hkey2] at hmem
    exact hmem
  | rightOnly =>
    exfalso
    rcases hanalysis.2.2 rfl with ⟨rr, _, _, hnotL, _⟩
    apply hnotL
    show k ∈ normKeys (prepCur s)
    rw [normKeys_prepCur hs]
    rw [hkey2] at hkeq
    exact hkeq ▸ List.mem_map_of_mem _ hr1
  | both =>
    rcases hanalysis.1 rfl with ⟨lr, hlrL, rr, hrrR, hklr, hkrr, hmv⟩
    simp only at hklr hkrr hmv
    subst hmv
    have hRsub : ∀ c ∈ (newDataForMerge b).cols, c ∈ EXPECTED_COLUMNS := by
      intro c hc
      rw [newDataForMerge_cols hk] at hc
      exact rcOf_sub b c hc
    -- identify the matched left row with r1
    rcases List.mem_map.mp (by rw [prepCur_rows hs] at hlrL; exact hlrL :
      lr ∈ s.rows.map (setKeyCell 0)) with ⟨lr0, hlr0, hlre⟩
    have hk0 : keyStrOf s lr0 = k := by
      rw [← keyStr_prepCur_row hs lr0, hlre]
      exact hklr
    have hlr0r1 : lr0 = r1 := by
      apply List.inj_on_of_nodup_map (f := fun r => keyStrOf s r) hns hlr0 hr1
      rw [hk0, hkeq, hkey2]
    have hlre2 : setKeyCell 0 r1 = lr := hlr0r1 ▸ hlre
    have hstatus := processMergedRow_both_user (prepCur s) (newDataForMerge b)
      now k lr rr (prepCur_cols hs) hRsub (Or.inl rfl)
      (by rw [newDataForMerge_cols hk]; exact status_not_mem_rcOf b)
    have hnotes := processMergedRow_both_user (prepCur s) (newDataForMerge b)
      now k lr rr (prepCur_cols hs) hRsub (Or.inr rfl)
      (by rw [newDataForMerge_cols hk]; exact notes_not_mem_rcOf b)
    have hcellS : cellOf (prepCur s).cols lr "Status" = cellOf s.cols r1 "Status" := by
      rw [← hlre2]
      exact cell_prepCur_ne hs (by decide) (by decide) r1
    have hcellN : cellOf (prepCur s).cols lr "Notes" = cellOf s.cols r1 "Notes" := by
      rw [← hlre2]
      exact cell_prepCur_ne hs (by decide) (by decide) r1
    rw [hcellS] at hstatus
    rw [hcellN] at hnotes
    constructor
    · show cellOf EXPECTED_COLUMNS r2 "Status" = _
      rw [← hxe]
      rw [hstatus]
      rw [if_neg (by decide : ¬ ("Status" : String) = "Notes")]
    · show cellOf EXPECTED_COLUMNS r2 "Notes" = _
      rw [← hxe]
      rw [hnotes]
      rw [if_pos rfl]

/-- C2: for every continuing record, the reconciled `Status` and `Notes`
are the persisted record's values — regardless of anything the incoming
batch carries, `Status`/`Notes` columns included — with the defaults
`"New"` / `""` used exactly when the persisted value itself is null. -/
theorem process_data_user_fields (b s : DF) (now : String)
    (hs : s.cols = EXPECTED_COLUMNS)
    (hk : keyColumn ∈ (sanitizeCols b).cols)
    (hns : (normKeys s).Nodup) :
    ∀ out, process_data b s now = Except.ok out →
    ∀ r2 ∈ out.rows, ∀ r1 ∈ s.rows,
      keyStrOf s r1 = keyStrOf out r2 →
      keyStrOf out r2 ∈ normKeys (sanitizeCols b) →
      (cellOf out.cols r2 "Status" =
        (if cellOf s.cols r1 "Status" = Val.vNull then Val.vStr "New"
         else cellOf s.cols r1 "Status")) ∧
      (cellOf out.cols r2 "Notes" =
        (if cellOf s.cols r1 "Notes" = Val.vNull then Val.vStr ""
         else cellOf s.cols r1 "Notes")) :=
  user_fields_core b s now hs hk hns

/-- Witness for the C2 theorem: a continuing record keeps its persisted
`Status`/`Notes`. -/
theorem process_data_user_fields_witness :
    (snapBobSalesperson.cols = EXPECTED_COLUMNS ∧
     keyColumn ∈ (sanitizeCols batchKey1).cols ∧
     (normKeys snapBobSalesperson).Nodup ∧
     process_data batchKey1 snapBobSalesperson "t" =
       Except.ok (DF.mk EXPECTED_COLUMNS
         [[Val.vStr "1", Val.vNull, Val.vNull, Val.vNull, Val.vNull, Val.vNull,
           Val.vNull, Val.vNull, Val.vStr "Done", Val.vStr "ok"]])) ∧
    (∀ r2 ∈ (DF.mk EXPECTED_COLUMNS
        [[Val.vStr "1", Val.vNull, Val.vNull, Val.vNull, Val.vNull, Val.vNull,
          Val.vNull, Val.vNull, Val.vStr "Done", Val.vStr "ok"]]).rows,
      ∀ r1 ∈ snapBobSalesperson.rows,
      keyStrOf snapBobSalesperson r1 =
        keyStrOf (DF.mk EXPECTED_COLUMNS
          [[Val.vStr "1", Val.vNull, Val.vNull, Val.vNull, Val.vNull, Val.vNull,
            Val.vNull, Val.vNull, Val.vStr "Done", Val.vStr "ok"]]) r2 →
      keyStrOf (DF.mk EXPECTED_COLUMNS
          [[Val.vStr "1", Val.vNull, Val.vNull, Val.vNull, Val.vNull, Val.vNull,
            Val.vNull, Val.vNull, Val.vStr "Done", Val.vStr "ok"]]) r2 ∈
        normKeys (sanitizeCols batchKey1) →
      (cellOf (DF.mk EXPECTED_COLUMNS
          [[Val.vStr "1", Val.vNull, Val.vNull, Val.vNull, Val.vNull, Val.vNull,
            Val.vNull, Val.vNull, Val.vStr "Done", Val.vStr "ok"]]).cols r2 "Status" =
        (if cellOf snapBobSalesperson.cols r1 "Status" = Val.vNull then Val.vStr "New"
         else cellOf snapBobSalesperson.cols r1 "Status")) ∧
      (cellOf (DF.mk EXPECTED_COLUMNS
          [[Val.vStr "1", Val.vNull, Val.vNull, Val.vNull, Val.vNull, Val.vNull,
            Val.vNull, Val.vNull, Val.vStr "Done", Val.vStr "ok"]]).cols r2 "Notes" =
        (if cellOf snapBobSalesperson.cols r1 "Notes" = Val.vNull then Val.vStr ""
         else cellOf snapBobSalesperson.cols r1 "Notes"))) :=
  ⟨⟨by decide, by decide, by decide, by decide⟩,
   process_data_user_fields batchKey1 snapBobSalesperson "t" (by decide)
     (by decide) (by decide) _ (by decide)⟩

/-! Field values of missing records. -/

theorem not_mem_of_mGet_none {cols : List String} {r : List Val} {c : String}
    (h : mGet cols r c = none) : c ∉ cols := by
  rw [mGet, Option.map_eq_none'] at h
  exact colIdx_eq_none_iff.mp h

theorem mem_of_mGet_some {cols : List String} {r : List Val} {c : String} {v : Val}
    (h : mGet cols r c = some v) : c ∈ cols := by
  by_contra hm
  rw [mGet, colIdx_eq_none_iff.mpr hm] at h
  cases h

theorem fLeftBase_cell (L R : DF) (k : String) (lr : List Val)
    (hL : L.cols = EXPECTED_COLUMNS)
    (hsub : ∀ c ∈ R.cols, c ∈ EXPECTED_COLUMNS)
    {c : String} (hc : c ∈ EXPECTED_COLUMNS) (hckey : c ≠ keyColumn) :
    fLeftBase (mergeColsFn L.cols R.cols)
      (mGet (mergeColsFn L.cols R.cols) (mergedRowOf L R k (some lr) none)) k c =
      cellOf L.cols lr c := by
  rw [fLeftBase, if_neg hckey]
  by_cases hmem : c ∈ R.cols
  · have hget := mGet_merged_old L R k (some lr) none hL hsub hc hckey
    rw [if_pos hmem] at hget
    have hmm : (c ++ "_old") ∈ mergeColsFn L.cols R.cols := mem_of_mGet_some hget
    rw [if_pos hmm, hget, nullNorm_some]
    rfl
  · have hgetold := mGet_merged_old L R k (some lr) none hL hsub hc hckey
    rw [if_neg hmem] at hgetold
    have hmm : (c ++ "_old") ∉ mergeColsFn L.cols R.cols :=
      not_mem_of_mGet_none hgetold
    rw [if_neg hmm]
    have hget := mGet_merged_plain L R k (some lr) none hL hsub hc hckey
    rw [if_neg hmem] at hget
    rw [hget, nullNorm_some]
    rfl

theorem processMergedRow_left_cells (L R : DF) (now k : String) (lr : List Val)
    (hL : L.cols = EXPECTED_COLUMNS)
    (hsub : ∀ c ∈ R.cols, c ∈ EXPECTED_COLUMNS) :
    (cellOf EXPECTED_COLUMNS
        (processMergedRow (mergeColsFn L.cols R.cols) now
          (MergeTag.leftOnly, k, mergedRowOf L R k (some lr) none)) "Status" =
      Val.vStr REVIEW_MISSING_STATUS) ∧
    (cellOf EXPECTED_COLUMNS
        (processMergedRow (mergeColsFn L.cols R.cols) now
          (MergeTag.leftOnly, k, mergedRowOf L R k (some lr) none)) "Notes" =
      Val.vStr (pyStrip (alertFull now (cellOf L.cols lr "Status") ++
        "\n-----\n" ++ existingNotesOf (cellOf L.cols lr "Notes")))) ∧
    (∀ c ∈ EXPECTED_COLUMNS, c ≠ keyColumn → c ≠ "Status" → c ≠ "Notes" →
      cellOf EXPECTED_COLUMNS
        (processMergedRow (mergeColsFn L.cols R.cols) now
          (MergeTag.leftOnly, k, mergedRowOf L R k (some lr) none)) c =
      castCol c (cellOf L.cols lr c)) := by
  refine ⟨?_, ?_, ?_⟩
  · rw [processMergedRow_left, cell_keyed _ (by decide)]
    rw [fLeftFinal, if_neg (by decide), if_pos rfl]
    rfl
  · rw [processMergedRow_left, cell_keyed _ (by decide)]
    rw [fLeftFinal, if_pos rfl]
    rw [fLeftBase_cell L R k lr hL hsub (by decide) (by decide)]
    rw [fLeftBase_cell L R k lr hL hsub (by decide) (by decide)]
    rfl
  · intro c hc hckey hcs hcn
    rw [processMergedRow_left, cell_keyed _ hc]
    rw [fLeftFinal, if_neg hcn, if_neg hcs]
    rw [fLeftBase_cell L R k lr hL hsub hc hckey]

/-- C3 (amended): a record present only in the persisted snapshot keeps all
source-owned fields, has its `Status` forced to the sentinel, and has its
`Notes` replaced by the timestamped alert (naming the prior status when that
was non-null, non-empty and not already the sentinel), an instruction, a
separator line and the prior notes text — prepended newest-first, with the
combined text stripped of leading and trailing whitespace, so trailing
whitespace of the prior notes is removed. -/
theorem process_data_missing_record (b s : DF) (now : String)
    (hs : s.cols = EXPECTED_COLUMNS)
    (hk : keyColumn ∈ (sanitizeCols b).cols)
    (hns : (normKeys s).Nodup) :
    ∀ out, process_data b s now = Except.ok out →
    ∀ r2 ∈ out.rows, ∀ r1 ∈ s.rows,
      keyStrOf s r1 = keyStrOf out r2 →
      keyStrOf out r2 ∉ normKeys (sanitizeCols b) →
      (cellOf out.cols r2 "Status" = Val.vStr REVIEW_MISSING_STATUS) ∧
      (cellOf out.cols r2 "Notes" = Val.vStr (pyStrip
        (alertFull now (cellOf s.cols r1 "Status") ++ "\n-----\n" ++
         existingNotesOf (cellOf s.cols r1 "Notes")))) ∧
      (∀ c ∈ EXPECTED_COLUMNS, c ≠ keyColumn → c ≠ "Status" → c ≠ "Notes" →
        (c ∈ dateColsConfig →
          toDatetimeCoerce (cellOf s.cols r1 c) = cellOf s.cols r1 c) →
        cellOf out.cols r2 c = cellOf s.cols r1 c) := by
  have hcur : keyColumn ∈ (prepCur s).cols := by
    rw [prepCur_cols hs]
    decide
  intro out hout r2 hr2 r1 hr1 hkeq hmem
  rw [process_data_ok now hk hcur] at hout
  cases hout
  rcases List.mem_map.mp hr2 with ⟨x, hx, hxe⟩
  have hkey2 : keyStrOf (buildOutput (prepCur s) (newDataForMerge b) now) r2 = x.2.1 := by
    rw [keyStrOf, ← hxe]
    show pyStr (cellOf EXPECTED_COLUMNS (processMergedRow _ now x) keyColumn) = _
    rw [outRow_key]
    rfl
  have hanalysis := outerMerge_mem hx
  rcases x with ⟨tag, k, mv⟩
  simp only at hkey2
  cases tag with
  | both =>
    exfalso
    rcases hanalysis.1 rfl with ⟨lr, _, rr, hrrR, _, hkrr, _⟩
    simp only at hkrr
    apply hmem
    rw [hkey2]
    rw [← normKeys_newDataForMerge hk]
    exact hkrr ▸ List.mem_map_of_mem _ hrrR
  | rightOnly =>
    exfalso
    rcases hanalysis.2.2 rfl with ⟨rr, _, _, hnotL, _⟩
    apply hnotL
    show k ∈ normKeys (prepCur s)
    rw [normKeys_prepCur hs]
    rw [hkey2] at hkeq
    exact hkeq ▸ List.mem_map_of_mem _ hr1
  | leftOnly =>
    rcases hanalysis.2.1 rfl with ⟨lr, hlrL, hklr, _, hmv⟩
    simp only at hklr hmv
    subst hmv
    have hRsub : ∀ c ∈ (newDataForMerge b).cols, c ∈ EXPECTED_COLUMNS := by
      intro c hc
      rw [newDataForMerge_cols hk] at hc
      exact rcOf_sub b c hc
    rcases List.mem_map.mp (by rw [prepCur_rows hs] at hlrL; exact hlrL :
      lr ∈ s.rows.map (setKeyCell 0)) with ⟨lr0, hlr0, hlre⟩
    have hk0 : keyStrOf s lr0 = k := by
      rw [← keyStr_prepCur_row hs lr0, hlre]
      exact hklr
    have hlr0r1 : lr0 = r1 := by
      apply List.inj_on_of_nodup_map (f := fun r => keyStrOf s r) hns hlr0 hr1
      rw [hk0, hkeq, hkey2]
    have hlre2 : setKeyCell 0 r1 = lr := hlr0r1 ▸ hlre
    have hcells := processMergedRow_left_cells (prepCur s) (newDataForMerge b)
      now k lr (prepCur_cols hs) hRsub
    have hcellc : ∀ c ∈ EXPECTED_COLUMNS, c ≠ keyColumn →
        cellOf (prepCur s).cols lr c = cellOf s.cols r1 c := by
      intro c hc hckey
      rw [← hlre2]
      exact cell_prepCur_ne hs hc hckey r1
    refine ⟨?_, ?_, ?_⟩
    · show cellOf EXPECTED_COLUMNS r2 "Status" = _
      rw [← hxe]
      exact hcells.1
    · show cellOf EXPECTED_COLUMNS r2 "Notes" = _
      rw [← hxe]
      rw [hcells.2.1]
      rw [hcellc "Status" (by decide) (by decide),
        hcellc "Notes" (by decide) (by decide)]
    · intro c hc hckey hcs hcn hdt
      show cellOf EXPECTED_COLUMNS r2 c = _
      rw [← hxe]
      rw [hcells.2.2 c hc hckey hcs hcn, hcellc c hc hckey]
      by_cases hcd : c ∈ dateColsConfig
      · rw [castCol, if_pos hcd]
        exact hdt hcd
      · rw [castCol, if_neg hcd, if_neg hckey]

set_option maxRecDepth 4000 in
/-- Witness for the C3 amended theorem: a record missing from the batch gets
the sentinel status, the prepended alert, and keeps its source fields. -/
theorem process_data_missing_record_witness :
    (snapCanon.cols = EXPECTED_COLUMNS ∧
     keyColumn ∈ (sanitizeCols batchEmptyRows).cols ∧
     (normKeys snapCanon).Nodup ∧
     process_data batchEmptyRows snapCanon "T" =
       Except.ok (DF.mk EXPECTED_COLUMNS
         [[Val.vStr "A", Val.vDate 100, Val.vDate 120, Val.vStr "Acme",
           Val.vStr "1000", Val.vStr "100", Val.vStr "Bob", Val.vStr "Pat",
           Val.vStr REVIEW_MISSING_STATUS,
           Val.vStr (pyStrip (alertFull "T" (Val.vStr "Done") ++ "\n-----\n" ++
             existingNotesOf (Val.vStr "ok")))]])) ∧
    (∀ r2 ∈ (DF.mk EXPECTED_COLUMNS
        [[Val.vStr "A", Val.vDate 100, Val.vDate 120, Val.vStr "Acme",
          Val.vStr "1000", Val.vStr "100", Val.vStr "Bob", Val.vStr "Pat",
          Val.vStr REVIEW_MISSING_STATUS,
          Val.vStr (pyStrip (alertFull "T" (Val.vStr "Done") ++ "\n-----\n" ++
            existingNotesOf (Val.vStr "ok")))]]).rows,
      ∀ r1 ∈ snapCanon.rows,
      keyStrOf snapCanon r1 = keyStrOf (DF.mk EXPECTED_COLUMNS
        [[Val.vStr "A", Val.vDate 100, Val.vDate 120, Val.vStr "Acme",
          Val.vStr "1000", Val.vStr "100", Val.vStr "Bob", Val.vStr "Pat",
          Val.vStr REVIEW_MISSING_STATUS,
          Val.vStr (pyStrip (alertFull "T" (Val.vStr "Done") ++ "\n-----\n" ++
            existingNotesOf (Val.vStr "ok")))]]) r2 →
      keyStrOf (DF.mk EXPECTED_COLUMNS
        [[Val.vStr "A", Val.vDate 100, Val.vDate 120, Val.vStr "Acme",
          Val.vStr "1000", Val.vStr "100", Val.vStr "Bob", Val.vStr "Pat",
          Val.vStr REVIEW_MISSING_STATUS,
          Val.vStr (pyStrip (alertFull "T" (Val.vStr "Done") ++ "\n-----\n" ++
            existingNotesOf (Val.vStr "ok")))]]) r2 ∉
        normKeys (sanitizeCols batchEmptyRows) →
      (cellOf (DF.mk EXPECTED_COLUMNS
        [[Val.vStr "A", Val.vDate 100, Val.vDate 120, Val.vStr "Acme",
          Val.vStr "1000", Val.vStr "100", Val.vStr "Bob", Val.vStr "Pat",
          Val.vStr REVIEW_MISSING_STATUS,
          Val.vStr (pyStrip (alertFull "T" (Val.vStr "Done") ++ "\n-----\n" ++
            existingNotesOf (Val.vStr "ok")))]]).cols r2 "Status" =
        Val.vStr REVIEW_MISSING_STATUS) ∧
      (cellOf (DF.mk EXPECTED_COLUMNS
        [[Val.vStr "A", Val.vDate 100, Val.vDate 120, Val.vStr "Acme",
          Val.vStr "1000", Val.vStr "100", Val.vStr "Bob", Val.vStr "Pat",
          Val.vStr REVIEW_MISSING_STATUS,
          Val.vStr (pyStrip (alertFull "T" (Val.vStr "Done") ++ "\n-----\n" ++
            existingNotesOf (Val.vStr "ok")))]]).cols r2 "Notes" =
        Val.vStr (pyStrip (alertFull "T" (cellOf snapCanon.cols r1 "Status") ++
          "\n-----\n" ++ existingNotesOf (cellOf snapCanon.cols r1 "Notes")))) ∧
      (∀ c ∈ EXPECTED_COLUMNS, c ≠ keyColumn → c ≠ "Status" → c ≠ "Notes" →
        (c ∈ dateColsConfig →
          toDatetimeCoerce (cellOf snapCanon.cols r1 c) = cellOf snapCanon.cols r1 c) →
        cellOf (DF.mk EXPECTED_COLUMNS
          [[Val.vStr "A", Val.vDate 100, Val.vDate 120, Val.vStr "Acme",
            Val.vStr "1000", Val.vStr "100", Val.vStr "Bob", Val.vStr "Pat",
            Val.vStr REVIEW_MISSING_STATUS,
            Val.vStr (pyStrip (alertFull "T" (Val.vStr "Done") ++ "\n-----\n" ++
              existingNotesOf (Val.vStr "ok")))]]).cols r2 c =
          cellOf snapCanon.cols r1 c)) :=
  ⟨⟨by decide, by decide, by decide, by decide⟩,
   process_data_missing_record batchEmptyRows snapCanon "T" (by decide)
     (by decide) (by decide) _ (by decide)⟩

/-! Idempotence of the user-owned fields. -/

theorem buildOutput_keys_nodup (L R : DF) (now : String)
    (hLn : (normKeys L).Nodup) (hRn : (normKeys R).Nodup) :
    (normKeys (buildOutput L R now)).Nodup := by
  rw [normKeys_buildOutput _ _ now hRn]
  apply List.Nodup.append hLn (List.Nodup.filter _ hRn)
  intro x hx1 hx2
  have hh := List.of_mem_filter hx2
  rw [decide_eq_true_eq] at hh
  exact hh hx1

theorem processMergedRow_user_ne_null (mcols : List String) (now : String)
    (x : MergeTag × String × List Val) {c : String}
    (hcu : c = "Status" ∨ c = "Notes") :
    cellOf EXPECTED_COLUMNS (processMergedRow mcols now x) c ≠ Val.vNull := by
  have hc : c ∈ EXPECTED_COLUMNS := by
    rcases hcu with h | h <;> subst h <;> decide
  have hckey : c ≠ keyColumn := by
    rcases hcu with h | h <;> subst h <;> decide
  have hcd : c ∉ dateColsConfig := by
    rcases hcu with h | h <;> subst h <;> decide
  rcases x with ⟨tag, k, mv⟩
  cases tag with
  | both =>
    rw [processMergedRow_both, cell_keyed _ hc, castCol, if_neg hcd, if_neg hckey]
    rw [fBoth, if_neg hckey, if_pos hcu]
    cases hg : mGet mcols mv c with
    | none =>
      rcases hcu with h | h <;> subst h
      · exact fun he => Val.noConfusion he
      · exact fun he => Val.noConfusion he
    | some v =>
      show (if isNull v = true then
        (if c = "Notes" then Val.vStr "" else Val.vStr "New") else v) ≠ Val.vNull
      cases v with
      | vNull => rcases hcu with h | h <;> subst h <;> simp [isNull]
      | vStr t => simp [isNull]
      | vNum n => simp [isNull]
      | vDate d => simp [isNull]
  | rightOnly =>
    rw [processMergedRow_right, cell_keyed _ hc, castCol, if_neg hcd, if_neg hckey]
    rw [fRight, if_neg hckey]
    rcases hcu with h | h <;> subst h
    · rw [if_pos rfl]
      exact fun he => Val.noConfusion he
    · rw [if_neg (by decide), if_pos rfl]
      exact fun he => Val.noConfusion he
  | leftOnly =>
    rw [processMergedRow_left, cell_keyed _ hc, castCol, if_neg hcd, if_neg hckey]
    rcases hcu with h | h <;> subst h
    · rw [fLeftFinal, if_neg (by decide), if_pos rfl]
      exact fun he => Val.noConfusion he
    · rw [fLeftFinal, if_pos rfl]
      exact fun he => Val.noConfusion he

/-- C7: reconciling the same batch against the first run's output leaves
every continuing record's `Status` and `Notes` exactly as the first run
produced them, whatever the two clock readings are. -/
theorem process_data_idempotent_user_fields (b s : DF) (t1 t2 : String)
    (hs : s.cols = EXPECTED_COLUMNS)
    (hk : keyColumn ∈ (sanitizeCols b).cols)
    (hnb : (normKeys (sanitizeCols b)).Nodup)
    (hns : (normKeys s).Nodup) :
    ∀ o1, process_data b s t1 = Except.ok o1 →
    ∀ o2, process_data b o1 t2 = Except.ok o2 →
    ∀ r2 ∈ o2.rows, ∀ r1 ∈ o1.rows,
      keyStrOf o1 r1 = keyStrOf o2 r2 →
      keyStrOf o2 r2 ∈ normKeys (sanitizeCols b) →
      cellOf o2.cols r2 "Status" = cellOf o1.cols r1 "Status" ∧
      cellOf o2.cols r2 "Notes" = cellOf o1.cols r1 "Notes" := by
  have hcur : keyColumn ∈ (prepCur s).cols := by
    rw [prepCur_cols hs]
    decide
  intro o1 h1 o2 h2 r2 hr2 r1 hr1 hkeq hmem
  rw [process_data_ok t1 hk hcur] at h1
  cases h1
  have ho1cols : (buildOutput (prepCur s) (newDataForMerge b) t1).cols =
      EXPECTED_COLUMNS := rfl
  have ho1nodup : (normKeys (buildOutput (prepCur s) (newDataForMerge b) t1)).Nodup := by
    apply buildOutput_keys_nodup
    · rw [normKeys_prepCur hs]
      exact hns
    · rw [normKeys_newDataForMerge hk]
      exact hnb
  have hcore := user_fields_core b
    (buildOutput (prepCur s) (newDataForMerge b) t1) t2 ho1cols hk ho1nodup
    o2 h2 r2 hr2 r1 hr1 hkeq hmem
  rw [ho1cols] at hcore
  rcases List.mem_map.mp hr1 with ⟨x1, _, hx1e⟩
  have hsnn : cellOf EXPECTED_COLUMNS r1 "Status" ≠ Val.vNull := by
    rw [← hx1e]
    exact processMergedRow_user_ne_null _ t1 x1 (Or.inl rfl)
  have hnnn : cellOf EXPECTED_COLUMNS r1 "Notes" ≠ Val.vNull := by
    rw [← hx1e]
    exact processMergedRow_user_ne_null _ t1 x1 (Or.inr rfl)
  constructor
  · rw [hcore.1, if_neg hsnn]
    rfl
  · rw [hcore.2, if_neg hnnn]
    rfl

/-- Witness for the C7 theorem: a second reconciliation of the same batch
against the first output keeps the continuing record's user fields. -/
theorem process_data_idempotent_user_fields_witness :
    (snapBobSalesperson.cols = EXPECTED_COLUMNS ∧
     keyColumn ∈ (sanitizeCols batchKey1).cols ∧
     (normKeys (sanitizeCols batchKey1)).Nodup ∧
     (normKeys snapBobSalesperson).Nodup ∧
     process_data batchKey1 snapBobSalesperson "t1" =
       Except.ok (DF.mk EXPECTED_COLUMNS
         [[Val.vStr "1", Val.vNull, Val.vNull, Val.vNull, Val.vNull, Val.vNull,
           Val.vNull, Val.vNull, Val.vStr "Done", Val.vStr "ok"]]) ∧
     process_data batchKey1 (DF.mk EXPECTED_COLUMNS
         [[Val.vStr "1", Val.vNull, Val.vNull, Val.vNull, Val.vNull, Val.vNull,
           Val.vNull, Val.vNull, Val.vStr "Done", Val.vStr "ok"]]) "t2" =
       Except.ok (DF.mk EXPECTED_COLUMNS
         [[Val.vStr "1", Val.vNull, Val.vNull, Val.vNull, Val.vNull, Val.vNull,
           Val.vNull, Val.vNull, Val.vStr "Done", Val.vStr "ok"]])) ∧
    (∀ r2 ∈ (DF.mk EXPECTED_COLUMNS
        [[Val.vStr "1", Val.vNull, Val.vNull, Val.vNull, Val.vNull, Val.vNull,
          Val.vNull, Val.vNull, Val.vStr "Done", Val.vStr "ok"]]).rows,
      ∀ r1 ∈ (DF.mk EXPECTED_COLUMNS
        [[Val.vStr "1", Val.vNull, Val.vNull, Val.vNull, Val.vNull, Val.vNull,
          Val.vNull, Val.vNull, Val.vStr "Done", Val.vStr "ok"]]).rows,
      keyStrOf (DF.mk EXPECTED_COLUMNS
        [[Val.vStr "1", Val.vNull, Val.vNull, Val.vNull, Val.vNull, Val.vNull,
          Val.vNull, Val.vNull, Val.vStr "Done", Val.vStr "ok"]]) r1 =
        keyStrOf (DF.mk EXPECTED_COLUMNS
        [[Val.vStr "1", Val.vNull, Val.vNull, Val.vNull, Val.vNull, Val.vNull,
          Val.vNull, Val.vNull, Val.vStr "Done", Val.vStr "ok"]]) r2 →
      keyStrOf (DF.mk EXPECTED_COLUMNS
        [[Val.vStr "1", Val.vNull, Val.vNull, Val.vNull, Val.vNull, Val.vNull,
          Val.vNull, Val.vNull, Val.vStr "Done", Val.vStr "ok"]]) r2 ∈
        normKeys (sanitizeCols batchKey1) →
      cellOf (DF.mk EXPECTED_COLUMNS
        [[Val.vStr "1", Val.vNull, Val.vNull, Val.vNull, Val.vNull, Val.vNull,
          Val.vNull, Val.vNull, Val.vStr "Done", Val.vStr "ok"]]).cols r2 "Status" =
        cellOf (DF.mk EXPECTED_COLUMNS
        [[Val.vStr "1", Val.vNull, Val.vNull, Val.vNull, Val.vNull, Val.vNull,
          Val.vNull, Val.vNull, Val.vStr "Done", Val.vStr "ok"]]).cols r1 "Status" ∧
      cellOf (DF.mk EXPECTED_COLUMNS
        [[Val.vStr "1", Val.vNull, Val.vNull, Val.vNull, Val.vNull, Val.vNull,
          Val.vNull, Val.vNull, Val.vStr "Done", Val.vStr "ok"]]).cols r2 "Notes" =
        cellOf (DF.mk EXPECTED_COLUMNS
        [[Val.vStr "1", Val.vNull, Val.vNull, Val.vNull, Val.vNull, Val.vNull,
          Val.vNull, Val.vNull, Val.vStr "Done", Val.vStr "ok"]]).cols r1 "Notes") :=
  ⟨⟨by decide, by decide, by decide, by decide, by decide, by decide⟩,
   process_data_idempotent_user_fields batchKey1 snapBobSalesperson "t1" "t2"
     (by decide) (by decide) (by decide) (by decide) _ (by decide) _ (by decide)⟩

/-- C10 (amended): `process_data` is deterministic given its two frames and
the clock string it reads internally at the annotation site; in particular,
whenever no persisted record is missing from the batch the internal clock
cannot influence the result at all, so two calls with identical frame inputs
agree whatever the wall clock does. -/
theorem process_data_clock_independent (b s : DF) (t1 t2 : String)
    (hs : s.cols = EXPECTED_COLUMNS)
    (hk : keyColumn ∈ (sanitizeCols b).cols)
    (hcov : ∀ x ∈ normKeys s, x ∈ normKeys (sanitizeCols b)) :
    process_data b s t1 = process_data b s t2 := by
  have hcur : keyColumn ∈ (prepCur s).cols := by
    rw [prepCur_cols hs]
    decide
  have hmap : (outerMergeRows (prepCur s) (newDataForMerge b)).map
      (processMergedRow (mergeColsFn (prepCur s).cols (newDataForMerge b).cols) t1) =
      (outerMergeRows (prepCur s) (newDataForMerge b)).map
      (processMergedRow (mergeColsFn (prepCur s).cols (newDataForMerge b).cols) t2) := by
    apply List.map_congr_left
    intro x hx
    have hanalysis := outerMerge_mem hx
    rcases x with ⟨tag, k, mv⟩
    cases tag with
    | both =>
      rw [processMergedRow_both _ t1 k mv, processMergedRow_both _ t2 k mv]
    | rightOnly =>
      rw [processMergedRow_right _ t1 k mv, processMergedRow_right _ t2 k mv]
    | leftOnly =>
      exfalso
      rcases hanalysis.2.1 rfl with ⟨lr, hlr, hke, hnotR, _⟩
      simp only at hke hnotR
      apply hnotR
      show k ∈ normKeys (newDataForMerge b)
      rw [normKeys_newDataForMerge hk]
      apply hcov
      rw [← normKeys_prepCur hs]
      exact hke ▸ List.mem_map_of_mem _ hlr
  rw [process_data_ok t1 hk hcur, process_data_ok t2 hk hcur, buildOutput,
    buildOutput, hmap]

/-- Witness for the C10 amended theorem: with every snapshot key present in
the batch, two different clock readings give identical results. -/
theorem process_data_clock_independent_witness :
    (snapBobSalesperson.cols = EXPECTED_COLUMNS ∧
     keyColumn ∈ (sanitizeCols batchKey1).cols ∧
     (∀ x ∈ normKeys snapBobSalesperson, x ∈ normKeys (sanitizeCols batchKey1))) ∧
    process_data batchKey1 snapBobSalesperson "2025-01-01 00:00" =
      process_data batchKey1 snapBobSalesperson "2025-01-02 00:00" :=
  ⟨⟨by decide, by decide, by decide⟩,
   process_data_clock_independent batchKey1 snapBobSalesperson
     "2025-01-01 00:00" "2025-01-02 00:00" (by decide) (by decide) (by decide)⟩
